import Mathlib

/-!
# libptx: a streaming reader for PTX point-cloud files

A shallow embedding of `src/libptx/libptx.h` (and of the reference sink of
`src/test/test.cpp`), followed by theorems about it.

Conventions of the embedding.

* A text line (`std::string`, `textio::SubString`) is a `List Char`.
* The line reader `m_lineReader` is the list of lines that have not been read yet.
* `double` is an abstract type `F` with a zero and a one; the conversions from
  text to `double` are fields of `TextLib` because `textio.h` is not part of the
  sources and floating point is not modelled.
* `int` is a 32-bit signed integer and `std::size_t` a 64-bit unsigned integer;
  both are embedded in `Int`/`Nat` with explicit wrap-around.
* A C++ exception, a failed `assert`, and an operation without defined behaviour
  (indexing a vector out of range, dividing by zero) are the three `Fault`s.
  Only the first one is intercepted by `catch (...)`.
* The caller's callback and sinks are observed through the trace of `Event`s.
-/

namespace libptx

/-- A line of text, or a token of a line. -/
abbrev Line := List Char

/-- The ways in which an operation of the reader can fail. -/
inductive Fault where
  /-- a C++ exception (`std::invalid_argument`, `std::out_of_range`, ...) -/
  | exception
  /-- a failed `assert` -/
  | assertion
  /-- an operation whose behaviour is undefined (`tokens[i]` out of range, `% 0`) -/
  | undefined
  deriving DecidableEq, Repr

deriving instance DecidableEq for Except

/-! ## Data model (`libptx.h`, lines 12-79) -/

/-- `struct RasterPosition`. -/
structure RasterPosition where
  column : Int
  row : Int
  deriving DecidableEq, Repr

/-- `class Point`; `r`, `g`, `b` are `unsigned char`. -/
structure Point (F : Type) where
  position : RasterPosition
  x : F
  y : F
  z : F
  intensity : F
  r : Nat
  g : Nat
  b : Nat
  deriving DecidableEq, Repr

/-- `Point::unsampled`. -/
def Point.unsampled {F : Type} [DecidableEq F] [Zero F] (p : Point F) : Bool :=
  decide (p.x = 0) && decide (p.y = 0) && decide (p.z = 0)

/-- `struct RasterDimensions`. -/
structure RasterDimensions where
  columns : Int
  rows : Int
  deriving DecidableEq, Repr

/-- `std::array<double, 3>`. -/
structure Vec3 (F : Type) where
  a0 : F
  a1 : F
  a2 : F
  deriving DecidableEq, Repr

/-- `Matrix3d`, an array of three rows. -/
structure Matrix3d (F : Type) where
  row0 : Vec3 F
  row1 : Vec3 F
  row2 : Vec3 F
  deriving DecidableEq, Repr

/-- `Vector3d`, a matrix with the single row `row0`. -/
structure Vector3d (F : Type) where
  row0 : Vec3 F
  deriving DecidableEq, Repr

/-- `identity()`. -/
def identity (F : Type) [Zero F] [One F] : Matrix3d F :=
  ⟨⟨1, 0, 0⟩, ⟨0, 1, 0⟩, ⟨0, 0, 1⟩⟩

/-- `zeros()`. -/
def zeros (F : Type) [Zero F] : Vector3d F :=
  ⟨⟨0, 0, 0⟩⟩

/-- `struct RegistrationParameters`. -/
structure RegistrationParameters (F : Type) where
  rotation : Matrix3d F
  translation : Vector3d F
  deriving DecidableEq, Repr

/-- `struct ScanInfo`. -/
structure ScanInfo (F : Type) where
  dimensions : RasterDimensions
  registration : RegistrationParameters F
  deriving DecidableEq, Repr

/-- The default constructor `ScanInfo()`: `RasterDimensions()` and
`RegistrationParameters()`. -/
def ScanInfo.default (F : Type) [Zero F] [One F] : ScanInfo F :=
  ⟨⟨0, 0⟩, ⟨identity F, zeros F⟩⟩

/-! ## External collaborators -/

/-- The parts of `textio.h` and of the C++ library that the reader uses and whose
code is not part of the sources: the tokenizer `textio::Tokenizer(' ')`, and the
conversions `std::stod`, `textio::stor<double>` and
`textio::stou<unsigned char>`; a conversion answers `none` when it throws. -/
structure TextLib (F : Type) where
  tokenize : Line → List Line
  stod : Line → Option F
  stor : Line → Option F
  stou : Line → Option Nat

/-- `isspace` in the "C" locale. -/
def isspace (c : Char) : Bool :=
  c.toNat == 32 || (9 ≤ c.toNat && c.toNat ≤ 13)

/-- `isdigit`. -/
def isdigit (c : Char) : Bool :=
  48 ≤ c.toNat && c.toNat ≤ 57

/-- The value of a string of decimal digits. -/
def digitsValue (ds : List Char) : Nat :=
  ds.foldl (fun acc c => 10 * acc + (c.toNat - 48)) 0

/-- Splits an optional sign off the front of a string. -/
def splitSign : Line → Bool × Line
  | '-' :: t => (true, t)
  | '+' :: t => (false, t)
  | t => (false, t)

/-- `std::stoi(str)` with base 10: skips leading white space, reads an optional
sign and the longest run of digits, and ignores what follows. It throws
(`none`) when there is no digit (`std::invalid_argument`) or when the value
does not fit an `int` (`std::out_of_range`). -/
def stoi (s : Line) : Option Int :=
  let p := splitSign (s.dropWhile isspace)
  let ds := p.2.takeWhile isdigit
  if ds = [] then none
  else
    let v : Int := if p.1 then -(digitsValue ds : Int) else (digitsValue ds : Int)
    if -2147483648 ≤ v ∧ v ≤ 2147483647 then some v else none

/-- The reading monad: a computation over the unread lines that returns a
value or a fault, and in both cases the lines left unread. -/
def Rd (α : Type) : Type := List Line → Except Fault α × List Line

/-- Sequencing in `Rd`; a fault ends the computation. -/
def Rd.bind {α β : Type} (m : Rd α) (f : α → Rd β) : Rd β := fun s =>
  match m s with
  | (.ok a, s1) => f a s1
  | (.error e, s1) => (.error e, s1)

instance : Monad Rd where
  pure a := fun s => (.ok a, s)
  bind := Rd.bind

/-- Runs a computation that does not touch the line reader. -/
def Rd.lift {α : Type} (r : Except Fault α) : Rd α := fun s => (r, s)

/-- Modelled from the spec: `textio::LineReader::getline`, of the absent
`textio.h`, "yields successive text lines"; when the stream is exhausted it
fails with an exception, which is what makes an exhausted header a failed header
and an exhausted record block a hard error. -/
def getline : Rd Line
  | [] => (.error .exception, [])
  | l :: rest => (.ok l, rest)

/-- Modelled from the spec: `textio::LineReader::eof`, of the absent `textio.h`,
"reports end-of-input". -/
def eof (lines : List Line) : Bool := lines.isEmpty

/-- The result of a conversion that throws when it fails. -/
def orThrow {α : Type} : Option α → Except Fault α
  | some a => .ok a
  | none => .error .exception

/-- `tokens[i]` on a `std::vector`: undefined when `i` is out of range. -/
def index (tokens : List Line) (i : Nat) : Except Fault Line :=
  match tokens.get? i with
  | some t => .ok t
  | none => .error .undefined

/-! ## The parsers (`libptx.h`, lines 105-151 and 195-214) -/

/-- `parseVector3`: the elements of the braced list are evaluated from left to
right. -/
def parseVector3 {F : Type} (io : TextLib F) (line : Line) : Except Fault (Vec3 F) :=
  let tokens := io.tokenize line
  do
    let t0 ← index tokens 0
    let a0 ← orThrow (io.stod t0)
    let t1 ← index tokens 1
    let a1 ← orThrow (io.stod t1)
    let t2 ← index tokens 2
    let a2 ← orThrow (io.stod t2)
    pure ⟨a0, a1, a2⟩

/-- The `try` block of `File::readHeader`. -/
def readHeaderBody {F : Type} (io : TextLib F) : Rd (ScanInfo F) := do
  let columns ← getline
  let rows ← getline
  let c ← Rd.lift (orThrow (stoi columns))
  let r ← Rd.lift (orThrow (stoi rows))
  let dimensions : RasterDimensions := ⟨c, r⟩
  let _scanner_origin ← getline
  let _scanner_x_axis ← getline
  let _scanner_y_axis ← getline
  let _scanner_z_axis ← getline
  let r0 ← getline
  let r1 ← getline
  let r2 ← getline
  let t ← getline
  let rot0 ← Rd.lift (parseVector3 io r0)
  let rot1 ← Rd.lift (parseVector3 io r1)
  let rot2 ← Rd.lift (parseVector3 io r2)
  let translation ← Rd.lift (parseVector3 io t)
  let registration : RegistrationParameters F := ⟨⟨rot0, rot1, rot2⟩, ⟨translation⟩⟩
  pure ⟨dimensions, registration⟩

/-- `File::readHeader`: `catch (...)` turns an exception of the `try` block into
the pair of `ScanInfo()` and `false`; the other faults are not exceptions. -/
def readHeader {F : Type} [Zero F] [One F] (io : TextLib F) : Rd (ScanInfo F × Bool) := fun s =>
  match readHeaderBody io s with
  | (.ok info, s1) => (.ok (info, true), s1)
  | (.error .exception, s1) => (.ok (ScanInfo.default F, false), s1)
  | (.error e, s1) => (.error e, s1)

/-! ## Machine integers -/

/-- The value of an integer as a 32-bit `int` (two's complement wrap-around). -/
def toInt32 (z : Int) : Int :=
  (z + 2147483648) % 4294967296 - 2147483648

/-- The value of an integer as a 64-bit `std::size_t`. -/
def toSizeT (z : Int) : Nat :=
  (z % 18446744073709551616).toNat

/-- `std::size_t totalLines = info.dimensions.columns * info.dimensions.rows;`:
the product is computed in `int`, where a product that does not fit wraps around
(the overflow is undefined in C++; wrap-around is what two's complement machines
give), and is then converted to `std::size_t`. -/
def totalLines {F : Type} (info : ScanInfo F) : Nat :=
  toSizeT (toInt32 (info.dimensions.columns * info.dimensions.rows))

/-- The raster position of record `lineIndex` (`libptx.h`, lines 179-181):
`lineIndex % rows` and `lineIndex / rows` are computed in `std::size_t`, `rows`
being converted to it, and narrowed to `int`; the division is undefined when the
divisor is zero. -/
def rasterPosition {F : Type} (info : ScanInfo F) (lineIndex : Nat) :
    Except Fault RasterPosition :=
  let rows := toSizeT info.dimensions.rows
  if rows = 0 then .error .undefined
  else
    let row := toInt32 ((lineIndex % rows : Nat) : Int)
    let column := toInt32 ((lineIndex / rows : Nat) : Int)
    .ok ⟨column, row⟩

/-! ## The reader (`libptx.h`, lines 160-214) -/

/-- What the caller observes of a run: `scanStart info` is an invocation of the
scan-start callback, and `insert k point` a call of `insert(point)` on the sink
that the `k`-th invocation of the callback (counted from 0) returned. -/
inductive Event (F : Type) where
  | scanStart (info : ScanInfo F)
  | insert (sink : Nat) (point : Point F)
  deriving DecidableEq, Repr

/-- The construction of the `Point` in `File::parseLine`, from the seven
tokens. -/
def parsePoint {F : Type} (io : TextLib F) (tokens : List Line) (position : RasterPosition) :
    Except Fault (Point F) := do
  let t0 ← index tokens 0
  let x ← orThrow (io.stor t0)
  let t1 ← index tokens 1
  let y ← orThrow (io.stor t1)
  let t2 ← index tokens 2
  let z ← orThrow (io.stor t2)
  let t3 ← index tokens 3
  let intensity ← orThrow (io.stor t3)
  let t4 ← index tokens 4
  let r ← orThrow (io.stou t4)
  let t5 ← index tokens 5
  let g ← orThrow (io.stou t5)
  let t6 ← index tokens 6
  let b ← orThrow (io.stou t6)
  pure ⟨position, x, y, z, intensity, r % 256, g % 256, b % 256⟩

/-- `File::parseLine`: the events it causes on the sink `inserter`, and whether it
returns (`.ok ()`) or fails. -/
def parseLine {F : Type} (io : TextLib F) (line : Line) (position : RasterPosition)
    (inserter : Nat) : List (Event F) × Except Fault Unit :=
  let tokens := io.tokenize line
  if tokens.length ≠ 7 then ([], .error .assertion)
  else
    match parsePoint io tokens position with
    | .ok point => ([Event.insert inserter point], .ok ())
    | .error e => ([], .error e)

/-- The inner loop of `File::readScans` (lines 177-186), entered with the given
`lineIndex`: the events it causes, whether it finishes or fails, and the lines
left unread. The match on the unread lines is `m_lineReader.getline()`. -/
def streamPoints {F : Type} (io : TextLib F) (info : ScanInfo F) (inserter : Nat)
    (total : Nat) : Nat → List Line → List (Event F) × Except Fault Unit × List Line
  | lineIndex, lines =>
    if lineIndex < total then
      match rasterPosition info lineIndex with
      | .error e => ([], .error e, lines)
      | .ok position =>
        match lines with
        | [] => ([], .error .exception, [])
        | line :: rest =>
          match parseLine io line position inserter with
          | (evs, .ok ()) =>
            let r := streamPoints io info inserter total (lineIndex + 1) rest
            (evs ++ r.1, r.2.1, r.2.2)
          | (evs, .error e) => (evs, .error e, rest)
    else ([], .ok (), lines)

/-- The outer loop of `File::readScans`, run for at most `fuel` iterations from
the unread `lines`, the callback having been invoked `k` times before: the trace
of events and whether the function returns or fails; `none` when the iterations
do not suffice. -/
def readScansLoop {F : Type} [Zero F] [One F] (io : TextLib F) :
    Nat → Nat → List Line → Option (List (Event F) × Except Fault Unit)
  | 0, _, _ => none
  | fuel + 1, k, lines =>
    match readHeader io lines with
    | (.error e, _) => some ([], .error e)
    | (.ok (_, false), _) => some ([], .ok ())
    | (.ok (info, true), lines1) =>
      match streamPoints io info k (totalLines info) 0 lines1 with
      | (evs, .error e, _) => some (Event.scanStart info :: evs, .error e)
      | (evs, .ok (), lines2) =>
        if eof lines2 then some (Event.scanStart info :: evs, .ok ())
        else
          match readScansLoop io fuel (k + 1) lines2 with
          | none => none
          | some (evs2, out) => some (Event.scanStart info :: (evs ++ evs2), out)

/-- The reader resumed at a header position, with `k` scans started before:
every iteration that goes on has read at least one line, so that one more
iteration than there are lines suffices. -/
def readScansFrom {F : Type} [Zero F] [One F] (io : TextLib F) (k : Nat) (lines : List Line) :
    Option (List (Event F) × Except Fault Unit) :=
  readScansLoop io (lines.length + 1) k lines

/-- `File::readScans` on a file with the given lines. -/
def readScans {F : Type} [Zero F] [One F] (io : TextLib F) (lines : List Line) :
    Option (List (Event F) × Except Fault Unit) :=
  readScansFrom io 0 lines

/-- `PointInserter::insert` of `test.cpp`, the reference sink, on its list
`m_points`: a point is kept unless it is unsampled. -/
def PointInserter.insert {F : Type} [DecidableEq F] [Zero F] (m_points : List (Point F))
    (point : Point F) : List (Point F) :=
  if !point.unsampled then m_points ++ [point] else m_points

/-! ## Views of a trace -/

/-- The `ScanInfo`s that the scan-start callback received, in order. -/
def scanStarts {F : Type} : List (Event F) → List (ScanInfo F)
  | [] => []
  | Event.scanStart info :: t => info :: scanStarts t
  | Event.insert _ _ :: t => scanStarts t

/-- The points delivered to the sink of scan `k`, in order. -/
def sinkPoints {F : Type} (k : Nat) : List (Event F) → List (Point F)
  | [] => []
  | Event.scanStart _ :: t => sinkPoints k t
  | Event.insert j p :: t => if j = k then p :: sinkPoints k t else sinkPoints k t

/-! ## A reference instance of the external collaborators -/

/-- An exact decimal number `mant / 10 ^ scale`, without trailing zeros in the
fraction; it stands for the `double` that a decimal literal denotes. -/
structure Dec where
  mant : Int
  scale : Nat
  deriving DecidableEq, Repr

/-- Removes the trailing zeros of the fraction. -/
def Dec.norm : Int → Nat → Dec
  | m, 0 => ⟨m, 0⟩
  | m, s + 1 => if m % 10 = 0 then Dec.norm (m / 10) s else ⟨m, s + 1⟩

instance : Zero Dec := ⟨⟨0, 0⟩⟩

instance : One Dec := ⟨⟨1, 0⟩⟩

/-- Modelled from the spec: `textio::Tokenizer`, of the absent `textio.h`, "splits
a line into delimiter-separated substrings"; every occurrence of the delimiter
separates two tokens. -/
def splitOnChar (d : Char) : Line → List Line
  | [] => [[]]
  | c :: cs =>
    if c = d then [] :: splitOnChar d cs
    else
      match splitOnChar d cs with
      | [] => [[c]]
      | t :: ts => (c :: t) :: ts

/-- Reads an optional sign, digits and an optional fraction off the front of a
string; answers the number and what follows it, or `none` without any digit. -/
def decPrefix (s : Line) : Option (Dec × Line) :=
  let p := splitSign s
  let ip := p.2.takeWhile isdigit
  let rest := p.2.dropWhile isdigit
  let fp := match rest with
    | '.' :: t => t.takeWhile isdigit
    | _ => []
  let rest2 := match rest with
    | '.' :: t => t.dropWhile isdigit
    | r => r
  if ip = [] ∧ fp = [] then none
  else
    let m : Int := (digitsValue (ip ++ fp) : Int)
    some (Dec.norm (if p.1 then -m else m) fp.length, rest2)

/-- Modelled from the spec: `std::stod` on plain decimal literals (no exponent,
no hexadecimal, no infinity or NaN): leading white space is skipped and what
follows the number is ignored. -/
def specStod (s : Line) : Option Dec :=
  (decPrefix (s.dropWhile isspace)).map Prod.fst

/-- Modelled from the spec: `textio::stor<double>`, of the absent `textio.h`,
converts "a substring token into a floating-point" value, "failing on malformed
input": the whole token has to be a plain decimal literal. -/
def specStor (s : Line) : Option Dec :=
  match decPrefix s with
  | some (v, []) => some v
  | _ => none

/-- Modelled from the spec: `textio::stou`, of the absent `textio.h`, converts "a
substring token into" an "unsigned-integer value, failing on malformed input":
the whole token has to be a non-empty run of digits. -/
def specStou (s : Line) : Option Nat :=
  if s ≠ [] ∧ s.all isdigit then some (digitsValue s) else none

/-- The reference instance of the external collaborators. -/
def specLib : TextLib Dec :=
  ⟨splitOnChar ' ', specStod, specStor, specStou⟩

/-! ## Definitions used in the statements -/

/-- Lines 136-143 of `File::readHeader` as a function of the four lines they
use: the three rows of the rotation and the translation. -/
def parseRegistration {F : Type} (io : TextLib F) (r0 r1 r2 t : Line) :
    Except Fault (RegistrationParameters F) := do
  let rot0 ← parseVector3 io r0
  let rot1 ← parseVector3 io r1
  let rot2 ← parseVector3 io r2
  let translation ← parseVector3 io t
  pure ⟨⟨rot0, rot1, rot2⟩, ⟨translation⟩⟩

/-- A well-formed record line: seven tokens, of which the first four are accepted
by `textio::stor<double>` and the last three by `textio::stou`. -/
def recordOk {F : Type} (io : TextLib F) (line : Line) : Bool :=
  match io.tokenize line with
  | [t0, t1, t2, t3, t4, t5, t6] =>
    (io.stor t0).isSome && (io.stor t1).isSome && (io.stor t2).isSome && (io.stor t3).isSome
      && (io.stou t4).isSome && (io.stou t5).isSome && (io.stou t6).isSome
  | _ => false

/-- An integer literal that makes up the whole line: an optional sign and a
non-empty run of digits, with nothing before or after. -/
def isIntegerLiteral (s : Line) : Bool :=
  let p := splitSign s
  !p.2.isEmpty && p.2.all isdigit

/-- A line of exactly three space-separated floating-point literals. -/
def isThreeFloats {F : Type} (io : TextLib F) (s : Line) : Bool :=
  (io.tokenize s).length == 3 && (io.tokenize s).all (fun t => (io.stor t).isSome)

/-- The raster positions of a trace's points. -/
def positions {F : Type} (pts : List (Point F)) : List RasterPosition :=
  pts.map Point.position

/-- The text of a line. -/
def ln (s : String) : Line := s.toList

/-- The ten lines of a header with the given dimension lines, the identity
rotation and the zero translation. -/
def headerLines (columns rows : String) : List Line :=
  [ln columns, ln rows, ln "0 0 0", ln "1 0 0", ln "0 1 0", ln "0 0 1",
   ln "1 0 0", ln "0 1 0", ln "0 0 1", ln "0 0 0"]

/-- The `ScanInfo` of `headerLines` for the dimensions `c` and `r`. -/
def headerInfo (c r : Int) : ScanInfo Dec :=
  ⟨⟨c, r⟩, ⟨identity Dec, zeros Dec⟩⟩

/-- A header whose first dimension line has trailing characters and whose
scanner origin and axes are not numeric. -/
def looseHeader : List Line :=
  [ln "2abc", ln " 3 rows", ln "origin", ln "x axis", ln "", ln "z",
   ln "1 0 0 extra", ln "0 1 0", ln "0 0 1", ln "0 0 0"]

/-- A header whose first rotation row has two tokens only. -/
def shortRotationHeader : List Line :=
  [ln "1", ln "1", ln "0 0 0", ln "1 0 0", ln "0 1 0", ln "0 0 1",
   ln "1 0", ln "0 1 0", ln "0 0 1", ln "0 0 0"]

/-- A header whose first dimension line is not numeric. -/
def badColumnsHeader : List Line :=
  headerLines "columns" "1"

/-- A well-formed record line. -/
def sampleRecord : Line := ln "1.5 -2 3 0.5 255 0 7"

/-- The values of an `int`. -/
def inIntRange (z : Int) : Prop :=
  -2147483648 ≤ z ∧ z ≤ 2147483647

/-- The shape of the trace of a run that is about to read the header of scan `k`:
a sequence of blocks, one for each scan, made of the invocation of the callback
and of the points inserted into the sink of that scan; the `j`-th point of a
block has the raster position that the code computes for the record index `j`,
there are at most `totalLines` of them, and exactly that many in a block that
another block follows. -/
inductive TraceFrom {F : Type} : Nat → List (Event F) → Prop
  | nil (k : Nat) : TraceFrom k []
  | block (k : Nat) (info : ScanInfo F) (pts : List (Point F)) (tail : List (Event F)) :
      inIntRange info.dimensions.columns → inIntRange info.dimensions.rows →
      (∀ j p, pts.get? j = some p → rasterPosition info j = .ok p.position) →
      pts.length ≤ totalLines info →
      (tail ≠ [] → pts.length = totalLines info) →
      TraceFrom (k + 1) tail →
      TraceFrom k (Event.scanStart info :: (pts.map (Event.insert k) ++ tail))

/-- The run of the reader over `n` complete scans, each of them followed by more
input, from a header position with `k` scans started before: the events, and the
lines left unread, which is where the header of scan `k + n` is expected. -/
def runPrefix {F : Type} [Zero F] [One F] (io : TextLib F) :
    Nat → Nat → List Line → Option (List (Event F) × List Line)
  | 0, _, lines => some ([], lines)
  | n + 1, k, lines =>
    match readHeader io lines with
    | (.ok (info, true), lines1) =>
      match streamPoints io info k (totalLines info) 0 lines1 with
      | (evs, .ok (), lines2) =>
        if eof lines2 then none
        else
          match runPrefix io n (k + 1) lines2 with
          | none => none
          | some (evs2, ls) => some (Event.scanStart info :: (evs ++ evs2), ls)
      | _ => none
    | _ => none

/-- Two scans, of 1 x 2 and of 2 x 2 records. -/
def twoScans : List Line :=
  headerLines "1" "2" ++ [sampleRecord, sampleRecord]
    ++ (headerLines "2" "2" ++ [sampleRecord, sampleRecord, sampleRecord, sampleRecord])

/-- A scan whose dimensions are negative, with two records. -/
def negativeScan : List Line :=
  headerLines "-2" "-1" ++ [sampleRecord, sampleRecord]

/-- A record line of zeros. -/
def zeroRecord : Line := ln "0 0 0 0 0 0 0"

/-- A scan of 65536 x 65536 records: the product of the dimensions is `2 ^ 32`,
which is not an `int`. -/
def overflowScan : List Line :=
  headerLines "65536" "65536" ++ List.replicate 4294967296 zeroRecord

/-- The point of `sampleRecord` at the raster position `(column, row)`. -/
def samplePoint (column row : Int) : Point Dec :=
  ⟨⟨column, row⟩, ⟨15, 1⟩, ⟨-2, 0⟩, ⟨3, 0⟩, ⟨5, 1⟩, 255, 0, 7⟩

/-- The trace of the reader on `twoScans`. -/
def twoScansTrace : List (Event Dec) :=
  [Event.scanStart (headerInfo 1 2),
   Event.insert 0 (samplePoint 0 0), Event.insert 0 (samplePoint 0 1),
   Event.scanStart (headerInfo 2 2),
   Event.insert 1 (samplePoint 0 0), Event.insert 1 (samplePoint 0 1),
   Event.insert 1 (samplePoint 1 0), Event.insert 1 (samplePoint 1 1)]

/-- The `ScanInfo` that the header parser makes of ten lines `zeroRecord`. -/
def zeroInfo : ScanInfo Dec :=
  ⟨⟨0, 0⟩, ⟨⟨⟨0, 0, 0⟩, ⟨0, 0, 0⟩, ⟨0, 0, 0⟩⟩, ⟨⟨0, 0, 0⟩⟩⟩⟩

/-- The text of one well-formed scan with the given `ScanInfo`: a header of ten
lines that `readHeader` accepts, followed by `columns * rows` well-formed record
lines. -/
def isScanText {F : Type} [Zero F] [One F] (io : TextLib F) (info : ScanInfo F)
    (text : List Line) : Prop :=
  readHeader io (text.take 10) = (.ok (info, true), []) ∧
  ((text.drop 10).length : Int) = info.dimensions.columns * info.dimensions.rows ∧
  ∀ l ∈ text.drop 10, recordOk io l = true

/-- A header whose first rotation row has two tokens and whose second rotation
row has a field that is not numeric. -/
def twoDefectsHeader : List Line :=
  [ln "1", ln "1", ln "0 0 0", ln "1 0 0", ln "0 1 0", ln "0 0 1",
   ln "1 0", ln "0 x 0", ln "0 0 1", ln "0 0 0"]

/-- Whether a line starts, after optional white space, with a minus sign. -/
def startsWithMinus (s : Line) : Bool :=
  (splitSign (s.dropWhile isspace)).1

/-- A point that differs from `p` in the raster position, the intensity and the
colour only. -/
def Point.recoloured {F : Type} (p : Point F) (position : RasterPosition) (intensity : F)
    (r g b : Nat) : Point F :=
  ⟨position, p.x, p.y, p.z, intensity, r, g, b⟩

/-- A header of 3 x 0 records, followed by a scan of 1 x 2 records. -/
def emptyScanFile : List Line :=
  headerLines "3" "0" ++ (headerLines "1" "2" ++ [sampleRecord, sampleRecord])

/-- The file `twoScans` with the record of index 2 of its second scan replaced
by a line of one token. -/
def corruptScans : List Line :=
  twoScans.take 24 ++ [ln "corrupt", sampleRecord]

/-! # Theorems -/

/-! ## The header parser -/

theorem readHeaderBody_ten {F : Type} (io : TextLib F) (l1 l2 l3 l4 l5 l6 l7 l8 l9 l10 : Line)
    (rest : List Line) :
    readHeaderBody io (l1 :: l2 :: l3 :: l4 :: l5 :: l6 :: l7 :: l8 :: l9 :: l10 :: rest) =
      match stoi l1, stoi l2 with
      | some c, some r =>
        ((parseRegistration io l7 l8 l9 l10).map (fun reg => ⟨⟨c, r⟩, reg⟩), rest)
      | _, _ => (.error .exception, l3 :: l4 :: l5 :: l6 :: l7 :: l8 :: l9 :: l10 :: rest) := by
  simp only [readHeaderBody, bind, Rd.bind, getline, Rd.lift, pure]
  cases h1 : stoi l1 <;> cases h2 : stoi l2 <;> simp only [orThrow]
  simp only [parseRegistration, bind, Except.bind, pure, Except.pure, Except.map]
  cases parseVector3 io l7 <;> simp only []
  cases parseVector3 io l8 <;> simp only []
  cases parseVector3 io l9 <;> simp only []
  cases parseVector3 io l10 <;> simp only []

theorem readHeaderBody_short {F : Type} (io : TextLib F) (lines : List Line)
    (h : lines.length < 10) :
    (readHeaderBody io lines).1 = .error .exception ∧
      ((readHeaderBody io lines).2 = lines.drop 2 ∨ (readHeaderBody io lines).2 = []) := by
  rcases lines with _ | ⟨l1, _ | ⟨l2, _ | ⟨l3, _ | ⟨l4, _ | ⟨l5, _ | ⟨l6, _ | ⟨l7, _ | ⟨l8,
    _ | ⟨l9, _ | ⟨l10, rest⟩⟩⟩⟩⟩⟩⟩⟩⟩⟩
  · exact ⟨rfl, Or.inr rfl⟩
  · exact ⟨rfl, Or.inr rfl⟩
  all_goals first
    | (simp only [List.length_cons] at h; omega)
    | (simp only [readHeaderBody, bind, Rd.bind, getline, Rd.lift, pure]
       cases stoi l1 <;> cases stoi l2 <;> simp [orThrow])

/-- The ten lines of a list that has at least ten. -/
theorem exists_ten (lines : List Line) (h : 10 ≤ lines.length) :
    ∃ l1 l2 l3 l4 l5 l6 l7 l8 l9 l10 rest,
      lines = l1 :: l2 :: l3 :: l4 :: l5 :: l6 :: l7 :: l8 :: l9 :: l10 :: rest := by
  rcases lines with _ | ⟨l1, _ | ⟨l2, _ | ⟨l3, _ | ⟨l4, _ | ⟨l5, _ | ⟨l6, _ | ⟨l7, _ | ⟨l8,
    _ | ⟨l9, _ | ⟨l10, rest⟩⟩⟩⟩⟩⟩⟩⟩⟩⟩
  all_goals first
    | (simp only [List.length_cons, List.length_nil] at h; omega)
    | exact ⟨_, _, _, _, _, _, _, _, _, _, _, rfl⟩

/-- A header that fails is reported with the default `ScanInfo`. -/
theorem readHeader_false_default {F : Type} [Zero F] [One F] (io : TextLib F) (lines : List Line)
    (info : ScanInfo F) (h : (readHeader io lines).1 = .ok (info, false)) :
    info = ScanInfo.default F := by
  unfold readHeader at h
  rcases hb : readHeaderBody io lines with ⟨r, s1⟩
  rw [hb] at h
  rcases r with e | a
  · cases e <;> simp at h
    exact h.symm
  · simp at h

/-- With fewer than ten lines left, the header fails without a fault. -/
theorem readHeader_short {F : Type} [Zero F] [One F] (io : TextLib F) (lines : List Line)
    (h : lines.length < 10) : (readHeader io lines).1 = .ok (ScanInfo.default F, false) := by
  have hs := (readHeaderBody_short io lines h).1
  unfold readHeader
  rcases hb : readHeaderBody io lines with ⟨r, s1⟩
  rw [hb] at hs
  simp only at hs
  subst hs
  rfl

/-- The header parser on ten lines and more. -/
theorem readHeader_ten {F : Type} [Zero F] [One F] (io : TextLib F)
    (l1 l2 l3 l4 l5 l6 l7 l8 l9 l10 : Line) (rest : List Line) :
    readHeader io (l1 :: l2 :: l3 :: l4 :: l5 :: l6 :: l7 :: l8 :: l9 :: l10 :: rest) =
      match stoi l1, stoi l2 with
      | some c, some r =>
        match parseRegistration io l7 l8 l9 l10 with
        | .ok reg => (.ok (⟨⟨c, r⟩, reg⟩, true), rest)
        | .error .exception => (.ok (ScanInfo.default F, false), rest)
        | .error e => (.error e, rest)
      | _, _ =>
        (.ok (ScanInfo.default F, false), l3 :: l4 :: l5 :: l6 :: l7 :: l8 :: l9 :: l10 :: rest) := by
  unfold readHeader
  rw [readHeaderBody_ten]
  cases stoi l1 <;> cases stoi l2 <;> simp only []
  rcases parseRegistration io l7 l8 l9 l10 with e | reg
  · cases e <;> rfl
  · rfl

/-- An accepted header consists of ten lines, of which the first two are
accepted by `std::stoi` and the last four by `parseVector3`. -/
theorem readHeader_true {F : Type} [Zero F] [One F] (io : TextLib F) (lines rest : List Line)
    (info : ScanInfo F) (h : readHeader io lines = (.ok (info, true), rest)) :
    ∃ l1 l2 l3 l4 l5 l6 l7 l8 l9 l10,
      lines = l1 :: l2 :: l3 :: l4 :: l5 :: l6 :: l7 :: l8 :: l9 :: l10 :: rest ∧
      stoi l1 = some info.dimensions.columns ∧ stoi l2 = some info.dimensions.rows ∧
      parseRegistration io l7 l8 l9 l10 = .ok info.registration := by
  by_cases hlen : lines.length < 10
  · have := readHeader_short io lines hlen
    rw [h] at this
    simp at this
  · obtain ⟨l1, l2, l3, l4, l5, l6, l7, l8, l9, l10, rest1, rfl⟩ :=
      exists_ten lines (by omega)
    rw [readHeader_ten] at h
    refine ⟨l1, l2, l3, l4, l5, l6, l7, l8, l9, l10, ?_⟩
    rcases h1 : stoi l1 with _ | c
    · rw [h1] at h
      simp at h
    rcases h2 : stoi l2 with _ | r
    · rw [h1, h2] at h
      simp at h
    rw [h1, h2] at h
    rcases hreg : parseRegistration io l7 l8 l9 l10 with e | reg
    · rw [hreg] at h
      cases e <;> simp at h
    · rw [hreg] at h
      simp only [Prod.mk.injEq, Except.ok.injEq, and_true] at h
      obtain ⟨rfl, rfl⟩ := h
      exact ⟨rfl, rfl, rfl, rfl⟩

/-- What `parseVector3` requires of a line that it accepts. -/
theorem parseVector3_ok {F : Type} (io : TextLib F) (line : Line) (v : Vec3 F)
    (h : parseVector3 io line = .ok v) :
    ∃ t0 t1 t2 more, io.tokenize line = t0 :: t1 :: t2 :: more ∧
      io.stod t0 = some v.a0 ∧ io.stod t1 = some v.a1 ∧ io.stod t2 = some v.a2 := by
  unfold parseVector3 at h
  rcases ht : io.tokenize line with _ | ⟨t0, _ | ⟨t1, _ | ⟨t2, more⟩⟩⟩ <;>
    simp only [ht, index, List.get?, bind, Except.bind, pure, Except.pure] at h
  · simp at h
  · rcases h0 : io.stod t0 with _ | a0 <;> simp [h0, orThrow] at h
  · rcases h0 : io.stod t0 with _ | a0 <;> simp only [h0, orThrow] at h
    · simp at h
    rcases h1 : io.stod t1 with _ | a1 <;> simp [h1] at h
  · rcases h0 : io.stod t0 with _ | a0 <;> simp only [h0, orThrow] at h
    · simp at h
    rcases h1 : io.stod t1 with _ | a1 <;> simp only [h1] at h
    · simp at h
    rcases h2 : io.stod t2 with _ | a2 <;> simp only [h2] at h
    · simp at h
    simp only [Except.ok.injEq] at h
    subst h
    exact ⟨t0, t1, t2, more, rfl, h0, h1, h2⟩

/-- The registration is accepted exactly when its four lines are. -/
theorem parseRegistration_ok {F : Type} (io : TextLib F) (r0 r1 r2 t : Line)
    (reg : RegistrationParameters F) :
    parseRegistration io r0 r1 r2 t = .ok reg ↔
      parseVector3 io r0 = .ok reg.rotation.row0 ∧ parseVector3 io r1 = .ok reg.rotation.row1 ∧
      parseVector3 io r2 = .ok reg.rotation.row2 ∧ parseVector3 io t = .ok reg.translation.row0 := by
  unfold parseRegistration
  simp only [bind, Except.bind, pure, Except.pure]
  rcases parseVector3 io r0 with e0 | v0 <;> simp only []
  · simp
  rcases parseVector3 io r1 with e1 | v1 <;> simp only []
  · simp
  rcases parseVector3 io r2 with e2 | v2 <;> simp only []
  · simp
  rcases parseVector3 io t with e3 | v3 <;> simp only []
  · simp
  rcases reg with ⟨⟨a, b, c⟩, ⟨d⟩⟩
  simp only [Except.ok.injEq, RegistrationParameters.mk.injEq, Matrix3d.mk.injEq,
    Vector3d.mk.injEq]
  tauto

/-! ## Claims about the parsers -/

/-- C5: a record line whose number of tokens differs from 7 makes `parseLine`
fail on its assertion, and no point is inserted into the sink. -/
theorem parseLine_token_count {F : Type} (io : TextLib F) (line : Line)
    (position : RasterPosition) (inserter : Nat) (h : (io.tokenize line).length ≠ 7) :
    parseLine io line position inserter = ([], .error .assertion) := by
  unfold parseLine
  simp only [h, ne_eq, not_false_eq_true, if_true]

theorem parseLine_token_count_witness :
    ((specLib.tokenize (ln "1 2 3 0.5 255 0")).length ≠ 7 ∧
      parseLine specLib (ln "1 2 3 0.5 255 0") ⟨0, 0⟩ 0 = ([], .error .assertion)) ∧
    ((specLib.tokenize (ln "1 2 3 0.5 255 0 7 9")).length ≠ 7 ∧
      parseLine specLib (ln "1 2 3 0.5 255 0 7 9") ⟨0, 0⟩ 0 = ([], .error .assertion)) :=
  ⟨⟨by decide, parseLine_token_count specLib (ln "1 2 3 0.5 255 0") ⟨0, 0⟩ 0 (by decide)⟩,
   ⟨by decide, parseLine_token_count specLib (ln "1 2 3 0.5 255 0 7 9") ⟨0, 0⟩ 0 (by decide)⟩⟩

/-- C7: when `readHeader` succeeds on the ten lines `l1`, ..., `l10`, the columns
and rows are the integers of `l1` and `l2`, the rows of the rotation are
`parseVector3` of `l7`, `l8`, `l9` and the translation is `parseVector3` of
`l10`; and the result is the same whatever lines stand in the place of `l3`, ...,
`l6`. -/
theorem readHeader_fields {F : Type} [Zero F] [One F] (io : TextLib F)
    (l1 l2 l3 l4 l5 l6 l7 l8 l9 l10 : Line) (rest s : List Line) (info : ScanInfo F)
    (h : readHeader io (l1 :: l2 :: l3 :: l4 :: l5 :: l6 :: l7 :: l8 :: l9 :: l10 :: rest)
      = (.ok (info, true), s)) :
    stoi l1 = some info.dimensions.columns ∧ stoi l2 = some info.dimensions.rows ∧
    parseVector3 io l7 = .ok info.registration.rotation.row0 ∧
    parseVector3 io l8 = .ok info.registration.rotation.row1 ∧
    parseVector3 io l9 = .ok info.registration.rotation.row2 ∧
    parseVector3 io l10 = .ok info.registration.translation.row0 ∧
    s = rest ∧
    ∀ m3 m4 m5 m6 : Line,
      readHeader io (l1 :: l2 :: m3 :: m4 :: m5 :: m6 :: l7 :: l8 :: l9 :: l10 :: rest)
        = (.ok (info, true), s) := by
  obtain ⟨k1, k2, k3, k4, k5, k6, k7, k8, k9, k10, hl, hc, hr, hreg⟩ :=
    readHeader_true io _ _ _ h
  simp only [List.cons.injEq] at hl
  obtain ⟨rfl, rfl, rfl, rfl, rfl, rfl, rfl, rfl, rfl, rfl, rfl⟩ := hl
  have hv := (parseRegistration_ok io _ _ _ _ _).1 hreg
  refine ⟨hc, hr, hv.1, hv.2.1, hv.2.2.1, hv.2.2.2, rfl, ?_⟩
  intro m3 m4 m5 m6
  rw [readHeader_ten, hc, hr, hreg]

theorem readHeader_fields_witness :
    readHeader specLib (headerLines "7" "8") = (.ok (headerInfo 7 8, true), []) ∧
    stoi (ln "7") = some 7 ∧ stoi (ln "8") = some 8 ∧
    parseVector3 specLib (ln "1 0 0") = .ok ⟨1, 0, 0⟩ ∧
    (∀ m3 m4 m5 m6 : Line,
      readHeader specLib (ln "7" :: ln "8" :: m3 :: m4 :: m5 :: m6 :: ln "1 0 0" :: ln "0 1 0"
        :: ln "0 0 1" :: ln "0 0 0" :: []) = (.ok (headerInfo 7 8, true), [])) :=
  have w := readHeader_fields specLib (ln "7") (ln "8") (ln "0 0 0") (ln "1 0 0") (ln "0 1 0")
    (ln "0 0 1") (ln "1 0 0") (ln "0 1 0") (ln "0 0 1") (ln "0 0 0") [] [] (headerInfo 7 8)
    (by decide)
  ⟨by decide, w.1, w.2.1, w.2.2.1, w.2.2.2.2.2.2.2⟩

/-- C8, as stated, fails: on ten lines of which the first is not numeric,
`readHeader` leaves eight lines unread, that is, it reads two lines and not ten. -/
theorem readHeader_cursor_counterexample :
    badColumnsHeader.length = 10 ∧
    readHeader specLib badColumnsHeader
      = (.ok (ScanInfo.default Dec, false), badColumnsHeader.drop 2) ∧
    badColumnsHeader.drop 2 ≠ badColumnsHeader.drop 10 := by
  decide

/-- C8, amended: with at least ten lines left, `readHeader` reads exactly ten
lines when `std::stoi` accepts lines 1 and 2, which is the case of every header
that it accepts, and exactly two lines otherwise; and from no position does it
read more than ten lines. -/
theorem readHeader_cursor {F : Type} [Zero F] [One F] (io : TextLib F) (lines : List Line)
    (h : 10 ≤ lines.length) :
    (readHeader io lines).2 =
      (if (stoi (lines.getD 0 [])).isSome ∧ (stoi (lines.getD 1 [])).isSome
        then lines.drop 10 else lines.drop 2) ∧
    (∀ info, (readHeader io lines).1 = .ok (info, true) →
      (readHeader io lines).2 = lines.drop 10) ∧
    (∀ ls : List Line, ∃ n, n ≤ 10 ∧ (readHeader io ls).2 = ls.drop n) := by
  have key : ∀ ls : List Line, 10 ≤ ls.length →
      (readHeader io ls).2 =
        (if (stoi (ls.getD 0 [])).isSome ∧ (stoi (ls.getD 1 [])).isSome
          then ls.drop 10 else ls.drop 2) ∧
      (∀ info, (readHeader io ls).1 = .ok (info, true) → (readHeader io ls).2 = ls.drop 10) := by
    intro ls hls
    obtain ⟨l1, l2, l3, l4, l5, l6, l7, l8, l9, l10, rest, rfl⟩ := exists_ten ls hls
    rw [readHeader_ten]
    rcases h1 : stoi l1 with _ | c
    · simp [h1]
    rcases h2 : stoi l2 with _ | r
    · simp [h1, h2]
    simp only [List.getD_cons_zero, List.getD_cons_succ, h1, h2, Option.isSome_some, and_self,
      if_true, List.drop_succ_cons, List.drop_zero]
    rcases parseRegistration io l7 l8 l9 l10 with e | reg
    · cases e <;> simp
    · simp
  refine ⟨(key lines h).1, (key lines h).2, ?_⟩
  intro ls
  by_cases hls : 10 ≤ ls.length
  · have hk := (key ls hls).1
    by_cases hc : (stoi (ls.getD 0 [])).isSome ∧ (stoi (ls.getD 1 [])).isSome
    · exact ⟨10, le_refl _, by rw [hk, if_pos hc]⟩
    · exact ⟨2, by omega, by rw [hk, if_neg hc]⟩
  · have hb := (readHeaderBody_short io ls (by omega)).2
    have hr : (readHeader io ls).2 = (readHeaderBody io ls).2 := by
      unfold readHeader
      rcases readHeaderBody io ls with ⟨r, s1⟩
      rcases r with e | a
      · cases e <;> rfl
      · rfl
    rw [hr]
    rcases hb with hb | hb
    · exact ⟨2, by omega, hb⟩
    · refine ⟨ls.length, by omega, ?_⟩
      rw [hb, List.drop_length]

theorem readHeader_cursor_witness :
    10 ≤ (headerLines "7" "8" ++ [sampleRecord]).length ∧
    (readHeader specLib (headerLines "7" "8" ++ [sampleRecord])).2 = [sampleRecord] ∧
    (readHeader specLib (headerLines "x" "8" ++ [sampleRecord])).2
      = (headerLines "x" "8" ++ [sampleRecord]).drop 2 :=
  ⟨by decide,
   (readHeader_cursor specLib (headerLines "7" "8" ++ [sampleRecord]) (by decide)).1,
   (readHeader_cursor specLib (headerLines "x" "8" ++ [sampleRecord]) (by decide)).1⟩

/-- C9: on a header whose first rotation row has two tokens, `parseVector3`
reads `tokens[2]` out of range; this is no exception, so that `readHeader` does
not return the default `ScanInfo` with `false`. -/
theorem readHeader_short_rotation :
    specLib.tokenize (ln "1 0") = [ln "1", ln "0"] ∧
    parseVector3 specLib (ln "1 0") = .error .undefined ∧
    readHeader specLib shortRotationHeader = (.error .undefined, []) ∧
    (readHeader specLib shortRotationHeader).1 ≠ .ok (ScanInfo.default Dec, false) := by
  decide

/-- C10, as stated, fails: `readHeader` accepts a header whose lines 1 and 2
are not integer literals (they have trailing or leading characters) and whose
lines 3 to 7 are not three floating-point literals. -/
theorem readHeader_loose_counterexample :
    readHeader specLib looseHeader = (.ok (headerInfo 2 3, true), []) ∧
    (looseHeader.take 2).map isIntegerLiteral = [false, false] ∧
    (looseHeader.drop 2).map (isThreeFloats specLib)
      = [false, false, false, false, false, true, true, true] := by
  decide

/-- C10, amended: `readHeader` returns success only on ten lines such that
`std::stoi` accepts lines 1 and 2 (each starts, after optional white space, with
an integer literal that fits an `int`) and each of the lines 7 to 10 has at
least three tokens, the first three of which `std::stod` accepts. -/
theorem readHeader_success_requires {F : Type} [Zero F] [One F] (io : TextLib F)
    (lines rest : List Line) (info : ScanInfo F)
    (h : readHeader io lines = (.ok (info, true), rest)) :
    ∃ l1 l2 l3 l4 l5 l6 l7 l8 l9 l10,
      lines = l1 :: l2 :: l3 :: l4 :: l5 :: l6 :: l7 :: l8 :: l9 :: l10 :: rest ∧
      (stoi l1).isSome ∧ (stoi l2).isSome ∧
      ∀ l ∈ [l7, l8, l9, l10], ∃ t0 t1 t2 more, io.tokenize l = t0 :: t1 :: t2 :: more ∧
        (io.stod t0).isSome ∧ (io.stod t1).isSome ∧ (io.stod t2).isSome := by
  obtain ⟨l1, l2, l3, l4, l5, l6, l7, l8, l9, l10, hl, hc, hr, hreg⟩ :=
    readHeader_true io _ _ _ h
  have hv := (parseRegistration_ok io _ _ _ _ _).1 hreg
  refine ⟨l1, l2, l3, l4, l5, l6, l7, l8, l9, l10, hl, by simp [hc], by simp [hr], ?_⟩
  have conv : ∀ (l : Line) (v : Vec3 F), parseVector3 io l = .ok v →
      ∃ t0 t1 t2 more, io.tokenize l = t0 :: t1 :: t2 :: more ∧
        (io.stod t0).isSome ∧ (io.stod t1).isSome ∧ (io.stod t2).isSome := by
    intro l v hlv
    obtain ⟨t0, t1, t2, more, ht, h0, h1, h2⟩ := parseVector3_ok io l v hlv
    exact ⟨t0, t1, t2, more, ht, by simp [h0], by simp [h1], by simp [h2]⟩
  intro l hmem
  simp only [List.mem_cons, List.mem_singleton, List.not_mem_nil, or_false] at hmem
  rcases hmem with rfl | rfl | rfl | rfl
  · exact conv _ _ hv.1
  · exact conv _ _ hv.2.1
  · exact conv _ _ hv.2.2.1
  · exact conv _ _ hv.2.2.2

theorem readHeader_success_requires_witness :
    readHeader specLib looseHeader = (.ok (headerInfo 2 3, true), []) ∧
    ∃ l1 l2 l3 l4 l5 l6 l7 l8 l9 l10,
      looseHeader = l1 :: l2 :: l3 :: l4 :: l5 :: l6 :: l7 :: l8 :: l9 :: l10 :: [] ∧
      (stoi l1).isSome ∧ (stoi l2).isSome ∧
      ∀ l ∈ [l7, l8, l9, l10], ∃ t0 t1 t2 more, specLib.tokenize l = t0 :: t1 :: t2 :: more ∧
        (specLib.stod t0).isSome ∧ (specLib.stod t1).isSome ∧ (specLib.stod t2).isSome :=
  ⟨by decide, readHeader_success_requires specLib looseHeader [] (headerInfo 2 3) (by decide)⟩


/-! ## The record loop -/

theorem parsePoint_position {F : Type} (io : TextLib F) (tokens : List Line)
    (pos : RasterPosition) (p : Point F) (h : parsePoint io tokens pos = .ok p) :
    p.position = pos := by
  unfold parsePoint at h
  simp only [bind, Except.bind, pure, Except.pure] at h
  repeat' split at h
  all_goals first
    | (simp only [Except.ok.injEq] at h; subst h; rfl)
    | exact absurd h (by simp)

theorem parseLine_cases {F : Type} (io : TextLib F) (line : Line) (pos : RasterPosition)
    (k : Nat) :
    (∃ e, parseLine io line pos k = ([], .error e)) ∨
    (∃ p, parseLine io line pos k = ([Event.insert k p], .ok ()) ∧ p.position = pos) := by
  unfold parseLine
  by_cases h : (io.tokenize line).length ≠ 7
  · left
    exact ⟨.assertion, by rw [if_pos h]⟩
  · rw [if_neg h]
    rcases hp : parsePoint io (io.tokenize line) pos with e | p
    · left; exact ⟨e, rfl⟩
    · right; exact ⟨p, rfl, parsePoint_position io _ _ _ hp⟩

theorem parseLine_recordOk {F : Type} (io : TextLib F) (line : Line) (pos : RasterPosition)
    (k : Nat) (h : recordOk io line = true) :
    ∃ p, parseLine io line pos k = ([Event.insert k p], .ok ()) ∧ p.position = pos := by
  unfold recordOk at h
  rcases ht : io.tokenize line with _ | ⟨t0, _ | ⟨t1, _ | ⟨t2, _ | ⟨t3, _ | ⟨t4, _ | ⟨t5,
    _ | ⟨t6, _ | ⟨t7, more⟩⟩⟩⟩⟩⟩⟩⟩ <;> rw [ht] at h <;> simp only [] at h
  all_goals try (exfalso; exact Bool.false_ne_true h)
  simp only [Bool.and_eq_true, Option.isSome_iff_exists] at h
  obtain ⟨⟨⟨⟨⟨⟨⟨x, hx⟩, ⟨y, hy⟩⟩, ⟨z, hz⟩⟩, ⟨i, hi⟩⟩, ⟨r, hr⟩⟩, ⟨g, hg⟩⟩, ⟨b, hb⟩⟩ := h
  refine ⟨⟨pos, x, y, z, i, r % 256, g % 256, b % 256⟩, ?_, rfl⟩
  simp [parseLine, ht, parsePoint, index, hx, hy, hz, hi, hr, hg, hb, orThrow, bind,
    Except.bind, pure, Except.pure]


theorem streamPoints_done {F : Type} (io : TextLib F) (info : ScanInfo F) (k total i : Nat)
    (lines : List Line) (h : ¬ i < total) :
    streamPoints io info k total i lines = ([], .ok (), lines) := by
  rw [streamPoints, if_neg h]

theorem streamPoints_nil {F : Type} (io : TextLib F) (info : ScanInfo F) (k total i : Nat)
    (h : i < total) :
    ∃ e, streamPoints io info k total i [] = ([], .error e, []) := by
  rw [streamPoints, if_pos h]
  rcases rasterPosition info i with e | pos
  · exact ⟨e, rfl⟩
  · exact ⟨.exception, rfl⟩

theorem streamPoints_cons {F : Type} (io : TextLib F) (info : ScanInfo F) (k total i : Nat)
    (line : Line) (rest : List Line) (pos : RasterPosition) (h : i < total)
    (hpos : rasterPosition info i = .ok pos) :
    streamPoints io info k total i (line :: rest) =
      match parseLine io line pos k with
      | (evs, .ok ()) =>
        (evs ++ (streamPoints io info k total (i + 1) rest).1,
          (streamPoints io info k total (i + 1) rest).2.1,
          (streamPoints io info k total (i + 1) rest).2.2)
      | (evs, .error e) => (evs, .error e, rest) := by
  rw [streamPoints, if_pos h, hpos]

theorem streamPoints_spec {F : Type} (io : TextLib F) (info : ScanInfo F) (k total : Nat) :
    ∀ (lines : List Line) (i : Nat), ∃ pts : List (Point F),
      (streamPoints io info k total i lines).1 = pts.map (Event.insert k) ∧
      (∀ j p, pts.get? j = some p → rasterPosition info (i + j) = .ok p.position) ∧
      pts.length ≤ total - i ∧ pts.length ≤ lines.length ∧
      ((streamPoints io info k total i lines).2.1 = .ok () →
        pts.length = total - i ∧
        (streamPoints io info k total i lines).2.2 = lines.drop (total - i)) ∧
      (streamPoints io info k total i lines).2.2.length ≤ lines.length := by
  intro lines
  induction lines with
  | nil =>
    intro i
    refine ⟨[], ?_⟩
    by_cases h : i < total
    · obtain ⟨e, he⟩ := streamPoints_nil io info k total i h
      rw [he]
      simp
    · rw [streamPoints_done io info k total i [] h]
      have h0 : total - i = 0 := by omega
      simp [h0]
  | cons line rest ih =>
    intro i
    by_cases h : i < total
    · rcases hpos : rasterPosition info i with e | pos
      · refine ⟨[], ?_⟩
        rw [streamPoints, if_pos h, hpos]
        simp
      · rw [streamPoints_cons io info k total i line rest pos h hpos]
        rcases parseLine_cases io line pos k with ⟨e, he⟩ | ⟨p, hp, hpp⟩
        · refine ⟨[], ?_⟩
          rw [he]
          simp
        · obtain ⟨pts, h1, h2, h3, h4, h5, h6⟩ := ih (i + 1)
          refine ⟨p :: pts, ?_⟩
          rw [hp]
          simp only [h1, List.map_cons, List.singleton_append, List.length_cons, true_and]
          refine ⟨?_, by omega, by omega, ?_, by omega⟩
          · intro j q hj
            rcases j with _ | j
            · simp only [List.get?_cons_zero, Option.some.injEq] at hj
              subst hj
              rw [hpp]
              simpa using hpos
            · simp only [List.get?_cons_succ] at hj
              have := h2 j q hj
              rw [show i + (j + 1) = i + 1 + j by omega]
              exact this
          · intro hok
            obtain ⟨ha, hb⟩ := h5 hok
            refine ⟨by omega, ?_⟩
            rw [hb, show total - i = (total - (i + 1)) + 1 by omega, List.drop_succ_cons]
    · refine ⟨[], ?_⟩
      rw [streamPoints_done io info k total i _ h]
      have h0 : total - i = 0 := by omega
      simp [h0]

theorem streamPoints_ok {F : Type} (io : TextLib F) (info : ScanInfo F) (k total : Nat)
    (hrows : total ≠ 0 → toSizeT info.dimensions.rows ≠ 0) :
    ∀ (lines : List Line) (i : Nat), total - i ≤ lines.length →
      (∀ l ∈ lines.take (total - i), recordOk io l = true) →
      (streamPoints io info k total i lines).2.1 = .ok () := by
  intro lines
  induction lines with
  | nil =>
    intro i hlen _
    rw [streamPoints_done io info k total i [] (by simp at hlen; omega)]
  | cons line rest ih =>
    intro i hlen hall
    by_cases h : i < total
    · have hpos : ∃ pos, rasterPosition info i = .ok pos := by
        unfold rasterPosition
        simp only [hrows (by omega), if_false]
        exact ⟨_, rfl⟩
      obtain ⟨pos, hpos⟩ := hpos
      rw [streamPoints_cons io info k total i line rest pos h hpos]
      have hsplit : total - i = (total - (i + 1)) + 1 := by omega
      rw [hsplit, List.take_succ_cons] at hall
      obtain ⟨p, hp, -⟩ := parseLine_recordOk io line pos k (hall line (by simp))
      rw [hp]
      simp only
      apply ih
      · simp only [List.length_cons] at hlen
        omega
      · intro l hl
        exact hall l (List.mem_cons_of_mem _ hl)
    · rw [streamPoints_done io info k total i _ h]


/-! ## The scan loop -/

theorem readHeader_true_length {F : Type} [Zero F] [One F] (io : TextLib F)
    (lines rest : List Line) (info : ScanInfo F)
    (h : readHeader io lines = (.ok (info, true), rest)) :
    lines.length = rest.length + 10 ∧ rest = lines.drop 10 := by
  obtain ⟨l1, l2, l3, l4, l5, l6, l7, l8, l9, l10, rfl, -⟩ := readHeader_true io _ _ _ h
  simp

theorem streamPoints_rest_length {F : Type} (io : TextLib F) (info : ScanInfo F)
    (k total i : Nat) (lines : List Line) :
    (streamPoints io info k total i lines).2.2.length ≤ lines.length := by
  obtain ⟨pts, -, -, -, -, -, h⟩ := streamPoints_spec io info k total lines i
  exact h

theorem readScansLoop_fuel {F : Type} [Zero F] [One F] (io : TextLib F) :
    ∀ (fuel fuel2 k : Nat) (lines : List Line), lines.length < fuel → lines.length < fuel2 →
      readScansLoop io fuel k lines = readScansLoop io fuel2 k lines := by
  intro fuel
  induction fuel with
  | zero => intro fuel2 k lines h; omega
  | succ fuel ih =>
    intro fuel2 k lines h h2
    rcases fuel2 with _ | fuel2
    · omega
    rw [readScansLoop, readScansLoop]
    rcases hh : readHeader io lines with ⟨r, lines1⟩
    rcases r with e | ⟨info, b⟩
    · rfl
    rcases b with _ | _
    · rfl
    simp only
    have hlen := (readHeader_true_length io _ _ _ hh).1
    have hrest := streamPoints_rest_length io info k (totalLines info) 0 lines1
    rcases hs : streamPoints io info k (totalLines info) 0 lines1 with ⟨evs, out, lines2⟩
    rw [hs] at hrest
    simp only at hrest
    rcases out with e | u
    · rfl
    simp only
    rw [ih fuel2 (k + 1) lines2 (by omega) (by omega)]

/-- The reader stops, and returns, at a header that fails. -/
theorem readScansFrom_stop {F : Type} [Zero F] [One F] (io : TextLib F) (k : Nat)
    (lines : List Line) (info : ScanInfo F) (h : (readHeader io lines).1 = .ok (info, false)) :
    readScansFrom io k lines = some ([], .ok ()) := by
  unfold readScansFrom
  rw [readScansLoop]
  rcases hh : readHeader io lines with ⟨r, lines1⟩
  rw [hh] at h
  simp only at h
  subst h
  rfl

/-- A fault of the header parser ends the reader. -/
theorem readScansFrom_fault {F : Type} [Zero F] [One F] (io : TextLib F) (k : Nat)
    (lines : List Line) (e : Fault) (h : (readHeader io lines).1 = .error e) :
    readScansFrom io k lines = some ([], .error e) := by
  unfold readScansFrom
  rw [readScansLoop]
  rcases hh : readHeader io lines with ⟨r, lines1⟩
  rw [hh] at h
  simp only at h
  subst h
  rfl

/-- One iteration of the outer loop on an accepted header. -/
theorem readScansFrom_scan {F : Type} [Zero F] [One F] (io : TextLib F) (k : Nat)
    (lines lines1 : List Line) (info : ScanInfo F)
    (h : readHeader io lines = (.ok (info, true), lines1)) :
    readScansFrom io k lines =
      match streamPoints io info k (totalLines info) 0 lines1 with
      | (evs, .error e, _) => some (Event.scanStart info :: evs, .error e)
      | (evs, .ok (), lines2) =>
        if eof lines2 then some (Event.scanStart info :: evs, .ok ())
        else
          match readScansFrom io (k + 1) lines2 with
          | none => none
          | some (evs2, out) => some (Event.scanStart info :: (evs ++ evs2), out) := by
  unfold readScansFrom
  rw [readScansLoop, h]
  simp only
  have hlen := (readHeader_true_length io _ _ _ h).1
  have hrest := streamPoints_rest_length io info k (totalLines info) 0 lines1
  rcases hs : streamPoints io info k (totalLines info) 0 lines1 with ⟨evs, out, lines2⟩
  rw [hs] at hrest
  simp only at hrest
  rcases out with e | u
  · rfl
  simp only
  rw [readScansLoop_fuel io lines.length (lines2.length + 1) (k + 1) lines2 (by omega)
    (by omega)]

/-- The reader ends on every input: it returns or it fails. -/
theorem readScansFrom_total {F : Type} [Zero F] [One F] (io : TextLib F) :
    ∀ (n k : Nat) (lines : List Line), lines.length ≤ n →
      ∃ r, readScansFrom io k lines = some r := by
  intro n
  induction n with
  | zero =>
    intro k lines h
    have hl : lines = [] := List.length_eq_zero.mp (by omega)
    subst hl
    exact ⟨_, readScansFrom_stop io k [] _ (readHeader_short io [] (by simp))⟩
  | succ n ih =>
    intro k lines h
    rcases hh : readHeader io lines with ⟨r, lines1⟩
    rcases r with e | ⟨info, b⟩
    · exact ⟨_, readScansFrom_fault io k lines e (by rw [hh])⟩
    rcases b with _ | _
    · exact ⟨_, readScansFrom_stop io k lines info (by rw [hh])⟩
    rw [readScansFrom_scan io k lines lines1 info hh]
    have hlen := (readHeader_true_length io _ _ _ hh).1
    have hrest := streamPoints_rest_length io info k (totalLines info) 0 lines1
    rcases hs : streamPoints io info k (totalLines info) 0 lines1 with ⟨evs, out, lines2⟩
    rw [hs] at hrest
    simp only at hrest
    rcases out with e | u
    · exact ⟨_, rfl⟩
    simp only
    by_cases he : eof lines2 = true
    · rw [if_pos he]
      exact ⟨_, rfl⟩
    · rw [if_neg he]
      obtain ⟨r, hr⟩ := ih (k + 1) lines2 (by omega)
      rw [hr]
      exact ⟨_, rfl⟩


/-! ## Views of a trace -/

theorem sinkPoints_append {F : Type} (j : Nat) (a b : List (Event F)) :
    sinkPoints j (a ++ b) = sinkPoints j a ++ sinkPoints j b := by
  induction a with
  | nil => rfl
  | cons e a ih =>
    cases e with
    | scanStart info => simpa [sinkPoints] using ih
    | insert i p =>
      by_cases h : i = j <;> simp [sinkPoints, h, ih]

theorem sinkPoints_inserts {F : Type} (j k : Nat) (pts : List (Point F)) :
    sinkPoints j (pts.map (Event.insert k)) = if k = j then pts else [] := by
  induction pts with
  | nil => simp [sinkPoints]
  | cons p pts ih =>
    by_cases h : k = j
    · subst h
      simpa [sinkPoints] using ih
    · simpa [sinkPoints, h] using ih

theorem scanStarts_append {F : Type} (a b : List (Event F)) :
    scanStarts (a ++ b) = scanStarts a ++ scanStarts b := by
  induction a with
  | nil => rfl
  | cons e a ih =>
    cases e with
    | scanStart info => simp [scanStarts, ih]
    | insert i p => simpa [scanStarts] using ih

theorem scanStarts_inserts {F : Type} (k : Nat) (pts : List (Point F)) :
    scanStarts (pts.map (Event.insert k)) = [] := by
  induction pts with
  | nil => rfl
  | cons p pts ih => simpa [scanStarts] using ih

/-- No point goes to the sink of a scan that was started before the position of
the trace. -/
theorem TraceFrom.sinkPoints_below {F : Type} {k : Nat} {trace : List (Event F)}
    (h : TraceFrom k trace) : ∀ j, j < k → sinkPoints j trace = [] := by
  induction h with
  | nil k => intro j _; rfl
  | block k info pts tail _ _ _ _ _ _ ih =>
    intro j hj
    have hne : ¬ k = j := by omega
    simp only [sinkPoints, sinkPoints_append, sinkPoints_inserts, hne, if_false,
      List.nil_append]
    exact ih j (by omega)

/-- The points of the sink of scan `k + n` are the first ones of the raster of
the `n`-th `ScanInfo` of the trace. -/
theorem TraceFrom.points {F : Type} {k : Nat} {trace : List (Event F)}
    (h : TraceFrom k trace) : ∀ (n : Nat) (info : ScanInfo F),
      (scanStarts trace).get? n = some info →
      inIntRange info.dimensions.columns ∧ inIntRange info.dimensions.rows ∧
      (sinkPoints (k + n) trace).length ≤ totalLines info ∧
      ∀ i p, (sinkPoints (k + n) trace).get? i = some p →
        rasterPosition info i = .ok p.position := by
  induction h with
  | nil k => intro n info hn; simp [scanStarts] at hn
  | block k info0 pts tail hc hr hpos hlen _ htail ih =>
    intro n info hn
    simp only [scanStarts, scanStarts_append, scanStarts_inserts, List.nil_append] at hn
    rcases n with _ | n
    · simp only [List.get?_cons_zero, Option.some.injEq] at hn
      subst hn
      have h0 := htail.sinkPoints_below k (by omega)
      simp only [Nat.add_zero, sinkPoints, sinkPoints_append, sinkPoints_inserts, if_true, h0,
        List.append_nil]
      exact ⟨hc, hr, hlen, hpos⟩
    · simp only [List.get?_cons_succ] at hn
      have hne : ¬ k = k + (n + 1) := by omega
      simp only [sinkPoints, sinkPoints_append, sinkPoints_inserts, hne, if_false,
        List.nil_append]
      have := ih n info hn
      rw [show k + 1 + n = k + (n + 1) by omega] at this
      exact this

/-! ## The shape of the reader's trace -/

/-- The value of `std::stoi` is an `int`. -/
theorem stoi_range (s : Line) (v : Int) (h : stoi s = some v) : inIntRange v := by
  unfold stoi at h
  dsimp only at h
  split_ifs at h
  all_goals (injection h with h; subst h; unfold inIntRange; assumption)

theorem readHeader_true_range {F : Type} [Zero F] [One F] (io : TextLib F)
    (lines rest : List Line) (info : ScanInfo F)
    (h : readHeader io lines = (.ok (info, true), rest)) :
    inIntRange info.dimensions.columns ∧ inIntRange info.dimensions.rows := by
  obtain ⟨l1, l2, l3, l4, l5, l6, l7, l8, l9, l10, -, hc, hr, -⟩ := readHeader_true io _ _ _ h
  exact ⟨stoi_range _ _ hc, stoi_range _ _ hr⟩

/-- The trace of the reader, from every header position, is a sequence of
blocks. -/
theorem readScansFrom_trace {F : Type} [Zero F] [One F] (io : TextLib F) :
    ∀ (n k : Nat) (lines : List Line) (trace : List (Event F)) (out : Except Fault Unit),
      lines.length ≤ n → readScansFrom io k lines = some (trace, out) → TraceFrom k trace := by
  intro n
  induction n with
  | zero =>
    intro k lines trace out h hrun
    have hl : lines = [] := List.length_eq_zero.mp (by omega)
    subst hl
    rw [readScansFrom_stop io k [] _ (readHeader_short io [] (by simp))] at hrun
    simp only [Option.some.injEq, Prod.mk.injEq] at hrun
    rw [← hrun.1]
    exact TraceFrom.nil k
  | succ n ih =>
    intro k lines trace out h hrun
    rcases hh : readHeader io lines with ⟨r, lines1⟩
    rcases r with e | ⟨info, b⟩
    · rw [readScansFrom_fault io k lines e (by rw [hh])] at hrun
      simp only [Option.some.injEq, Prod.mk.injEq] at hrun
      rw [← hrun.1]
      exact TraceFrom.nil k
    rcases b with _ | _
    · rw [readScansFrom_stop io k lines info (by rw [hh])] at hrun
      simp only [Option.some.injEq, Prod.mk.injEq] at hrun
      rw [← hrun.1]
      exact TraceFrom.nil k
    rw [readScansFrom_scan io k lines lines1 info hh] at hrun
    have hlen := (readHeader_true_length io _ _ _ hh).1
    obtain ⟨hcr, hrr⟩ := readHeader_true_range io _ _ _ hh
    obtain ⟨pts, h1, h2, h3, h4, h5, h6⟩ :=
      streamPoints_spec io info k (totalLines info) lines1 0
    rcases hs : streamPoints io info k (totalLines info) 0 lines1 with ⟨evs, o, lines2⟩
    rw [hs] at hrun h1 h5 h6
    simp only at h1 h5 h6
    have hpos : ∀ j p, pts.get? j = some p → rasterPosition info j = .ok p.position := by
      intro j p hj
      simpa using h2 j p hj
    have hsingle : TraceFrom k (Event.scanStart info :: (pts.map (Event.insert k) ++ [])) :=
      TraceFrom.block k info pts [] hcr hrr hpos (by omega) (fun hne => absurd rfl hne)
        (TraceFrom.nil _)
    rw [List.append_nil] at hsingle
    rcases o with e | u
    · simp only [Option.some.injEq, Prod.mk.injEq] at hrun
      rw [← hrun.1, h1]
      exact hsingle
    simp only at hrun
    by_cases he : eof lines2 = true
    · rw [if_pos he] at hrun
      simp only [Option.some.injEq, Prod.mk.injEq] at hrun
      rw [← hrun.1, h1]
      exact hsingle
    · rw [if_neg he] at hrun
      rcases hr2 : readScansFrom io (k + 1) lines2 with _ | ⟨evs2, out2⟩
      · rw [hr2] at hrun
        simp at hrun
      rw [hr2] at hrun
      simp only [Option.some.injEq, Prod.mk.injEq] at hrun
      rw [← hrun.1, h1]
      have htail := ih (k + 1) lines2 evs2 out2 (by omega) hr2
      exact TraceFrom.block k info pts evs2 hcr hrr hpos (by omega)
        (fun _ => by have := (h5 rfl).1; omega) htail


/-! ## Machine arithmetic of the raster -/

theorem toInt32_of_range (z : Int) (h : inIntRange z) : toInt32 z = z := by
  unfold inIntRange at h
  unfold toInt32
  omega

theorem toSizeT_of_nonneg (z : Int) (h0 : 0 ≤ z) (h1 : z ≤ 2147483647) :
    toSizeT z = z.toNat := by
  unfold toSizeT
  congr 1
  omega

/-- The record count when the product of the dimensions is a non-negative
`int`. -/
theorem totalLines_of_fit {F : Type} (info : ScanInfo F)
    (h0 : 0 ≤ info.dimensions.columns * info.dimensions.rows)
    (h1 : info.dimensions.columns * info.dimensions.rows ≤ 2147483647) :
    totalLines info = (info.dimensions.columns * info.dimensions.rows).toNat := by
  unfold totalLines
  rw [toInt32_of_range _ ⟨by omega, h1⟩, toSizeT_of_nonneg _ h0 h1]

/-- The raster position of record `i` for non-negative dimensions. -/
theorem rasterPosition_of_nonneg {F : Type} (info : ScanInfo F) (i : Nat)
    (pos : RasterPosition)
    (hc : info.dimensions.columns ≤ 2147483647)
    (hr0 : 0 ≤ info.dimensions.rows) (hr1 : info.dimensions.rows ≤ 2147483647)
    (hi : (i : Int) < info.dimensions.columns * info.dimensions.rows)
    (h : rasterPosition info i = .ok pos) :
    pos.row = (i : Int) % info.dimensions.rows ∧
    pos.column = (i : Int) / info.dimensions.rows := by
  rcases info with ⟨⟨c, rows⟩, reg⟩
  simp only at hc hr0 hr1 hi ⊢
  unfold rasterPosition at h
  simp only at h
  rw [toSizeT_of_nonneg _ hr0 hr1] at h
  lift rows to ℕ using hr0 with r
  simp only [Int.toNat_ofNat] at h
  split_ifs at h with hz
  injection h with h
  subst h
  simp only
  have hrpos : 0 < r := Nat.pos_of_ne_zero hz
  have hmod : ((i % r : Nat) : Int) < (r : Int) := by exact_mod_cast Nat.mod_lt _ hrpos
  have hmod0 : 0 ≤ ((i % r : Nat) : Int) := Int.natCast_nonneg _
  have hdiv0 : 0 ≤ ((i / r : Nat) : Int) := Int.natCast_nonneg _
  have hdiv : ((i / r : Nat) : Int) < c := by
    have h1 : (i : Int) / (r : Int) < c := by
      apply Int.ediv_lt_of_lt_mul (by exact_mod_cast hrpos)
      exact hi
    exact_mod_cast h1
  constructor
  · rw [toInt32_of_range _ ⟨by linarith, by linarith⟩]
    exact Int.natCast_mod i r
  · rw [toInt32_of_range _ ⟨by linarith, by linarith⟩]
    exact Int.natCast_div i r

/-- A list of `C * R` positions of which the `j`-th is `(j / R, j % R)` lists
every pair of the grid once. -/
theorem grid_positions (C R : Nat) (ps : List RasterPosition) (hlen : ps.length = C * R)
    (hps : ∀ j pos, ps.get? j = some pos →
      pos = ⟨((j / R : Nat) : Int), ((j % R : Nat) : Int)⟩) :
    ps.Nodup ∧
    ∀ pos : RasterPosition, pos ∈ ps ↔
      (0 ≤ pos.column ∧ pos.column < C ∧ 0 ≤ pos.row ∧ pos.row < R) := by
  have heq : ps = (List.range (C * R)).map
      (fun j => (⟨((j / R : Nat) : Int), ((j % R : Nat) : Int)⟩ : RasterPosition)) := by
    apply List.ext_get?
    intro j
    by_cases hj : j < C * R
    · have hlt : j < ps.length := by omega
      rw [List.get?_eq_get hlt]
      have := hps j (ps.get ⟨j, hlt⟩) (List.get?_eq_get hlt)
      rw [this]
      simp [hj]
    · rw [List.get?_eq_none.mpr (by omega), List.get?_eq_none.mpr (by simp; omega)]
  rw [heq]
  constructor
  · apply List.Nodup.map_on _ (List.nodup_range _)
    intro a _ b _ hab
    simp only [RasterPosition.mk.injEq, Nat.cast_inj] at hab
    rw [← Nat.div_add_mod a R, ← Nat.div_add_mod b R, hab.1, hab.2]
  · intro pos
    simp only [List.mem_map, List.mem_range]
    constructor
    · rintro ⟨j, hj, rfl⟩
      have hR : 0 < R := by
        rcases Nat.eq_zero_or_pos R with h | h
        · subst h; simp at hj
        · exact h
      refine ⟨by positivity, ?_, by positivity, ?_⟩
      · have : j / R < C := Nat.div_lt_of_lt_mul (by rw [Nat.mul_comm]; exact hj)
        show ((j / R : Nat) : Int) < (C : Int)
        exact_mod_cast this
      · show ((j % R : Nat) : Int) < (R : Int)
        exact_mod_cast Nat.mod_lt j hR
    · rintro ⟨h1, h2, h3, h4⟩
      rcases pos with ⟨col, row⟩
      simp only at h1 h2 h3 h4
      lift col to ℕ using h1
      lift row to ℕ using h3
      have h2n : col < C := by exact_mod_cast h2
      have h4n : row < R := by exact_mod_cast h4
      refine ⟨col * R + row, ?_, ?_⟩
      · calc col * R + row < col * R + R := by omega
          _ = (col + 1) * R := by ring
          _ ≤ C * R := Nat.mul_le_mul_right _ (by omega)
      · have hd : (col * R + row) / R = col := by
          rw [Nat.add_comm, Nat.add_mul_div_right _ _ (by omega), Nat.div_eq_of_lt h4n,
            Nat.zero_add]
        have hm : (col * R + row) % R = row := by
          rw [Nat.add_comm, Nat.add_mul_mod_self_right, Nat.mod_eq_of_lt h4n]
        rw [hd, hm]

/-! ## Header positions -/

/-- The run of the reader is the run over the scans before a header position,
followed by the run from that position. -/
theorem runPrefix_run {F : Type} [Zero F] [One F] (io : TextLib F) :
    ∀ (n k : Nat) (lines : List Line) (pre : List (Event F)) (ls : List Line),
      runPrefix io n k lines = some (pre, ls) →
      (∀ r, readScansFrom io (k + n) ls = some r →
        readScansFrom io k lines = some (pre ++ r.1, r.2)) ∧
      (scanStarts pre).length = n ∧
      (∀ j, k + n ≤ j → sinkPoints j pre = []) := by
  intro n
  induction n with
  | zero =>
    intro k lines pre ls h
    simp only [runPrefix, Option.some.injEq, Prod.mk.injEq] at h
    obtain ⟨rfl, rfl⟩ := h
    refine ⟨?_, rfl, fun _ _ => rfl⟩
    intro r hr
    simpa using hr
  | succ n ih =>
    intro k lines pre ls h
    rw [runPrefix] at h
    rcases hh : readHeader io lines with ⟨r, lines1⟩
    rw [hh] at h
    rcases r with e | ⟨info, b⟩
    · simp at h
    rcases b with _ | _
    · simp at h
    simp only at h
    obtain ⟨pts, h1, -⟩ := streamPoints_spec io info k (totalLines info) lines1 0
    rcases hs : streamPoints io info k (totalLines info) 0 lines1 with ⟨evs, o, lines2⟩
    rw [hs] at h h1
    simp only at h1
    rcases o with e | u
    · simp at h
    simp only at h
    by_cases he : eof lines2 = true
    · rw [if_pos he] at h
      simp at h
    rw [if_neg he] at h
    rcases hp : runPrefix io n (k + 1) lines2 with _ | ⟨evs2, ls2⟩
    · rw [hp] at h
      simp at h
    rw [hp] at h
    simp only [Option.some.injEq, Prod.mk.injEq] at h
    obtain ⟨rfl, rfl⟩ := h
    obtain ⟨ih1, ih2, ih3⟩ := ih (k + 1) lines2 evs2 ls2 hp
    refine ⟨?_, ?_, ?_⟩
    · intro r hr
      rw [show k + (n + 1) = k + 1 + n by omega] at hr
      rw [readScansFrom_scan io k lines lines1 info hh, hs]
      simp only
      rw [if_neg he, ih1 r hr]
      simp
    · simp [scanStarts, scanStarts_append, h1, scanStarts_inserts, ih2]
    · intro j hj
      have hne : ¬ k = j := by omega
      simp only [sinkPoints, sinkPoints_append, h1, sinkPoints_inserts, hne, if_false,
        List.nil_append]
      exact ih3 j (by omega)

theorem toSizeT_ne_zero (z : Int) (hz : inIntRange z) (h : z ≠ 0) : toSizeT z ≠ 0 := by
  unfold inIntRange at hz
  unfold toSizeT
  omega

/-- One iteration of the outer loop on an accepted header whose record count fits
an `int` and whose records are all there and well formed. -/
theorem readScansFrom_wellformed {F : Type} [Zero F] [One F] (io : TextLib F) (k : Nat)
    (ls ls1 : List Line) (info : ScanInfo F)
    (hhdr : readHeader io ls = (.ok (info, true), ls1))
    (h0 : 0 ≤ info.dimensions.columns * info.dimensions.rows)
    (hfit : info.dimensions.columns * info.dimensions.rows ≤ 2147483647)
    (hlen : (info.dimensions.columns * info.dimensions.rows).toNat ≤ ls1.length)
    (hrec : ∀ l ∈ ls1.take (info.dimensions.columns * info.dimensions.rows).toNat,
      recordOk io l = true) :
    ∃ (pts : List (Point F)) (tail : List (Event F)) (out : Except Fault Unit),
      readScansFrom io k ls
        = some (Event.scanStart info :: (pts.map (Event.insert k) ++ tail), out) ∧
      pts.length = (info.dimensions.columns * info.dimensions.rows).toNat ∧
      (∀ j p, pts.get? j = some p → rasterPosition info j = .ok p.position) ∧
      TraceFrom (k + 1) tail ∧
      (if ls1.drop (info.dimensions.columns * info.dimensions.rows).toNat = []
        then tail = [] ∧ out = .ok ()
        else readScansFrom io (k + 1)
          (ls1.drop (info.dimensions.columns * info.dimensions.rows).toNat) = some (tail, out)) := by
  have htot := totalLines_of_fit info h0 hfit
  obtain ⟨-, hrr⟩ := readHeader_true_range io _ _ _ hhdr
  have hrows : totalLines info ≠ 0 → toSizeT info.dimensions.rows ≠ 0 := by
    intro hne
    apply toSizeT_ne_zero _ hrr
    intro hz
    rw [htot, hz] at hne
    simp at hne
  have hok := streamPoints_ok io info k (totalLines info) hrows ls1 0
    (by rw [htot]; simpa using hlen) (by rw [htot]; simpa using hrec)
  obtain ⟨pts, h1, h2, h3, h4, h5, h6⟩ := streamPoints_spec io info k (totalLines info) ls1 0
  rw [readScansFrom_scan io k ls ls1 info hhdr]
  rcases hs : streamPoints io info k (totalLines info) 0 ls1 with ⟨evs, o, lines2⟩
  rw [hs] at hok h1 h5
  simp only at hok h1 h5
  subst hok
  obtain ⟨h5a, h5b⟩ := h5 rfl
  simp only [Nat.sub_zero] at h5a h5b
  rw [htot] at h5a h5b
  have hpos : ∀ j p, pts.get? j = some p → rasterPosition info j = .ok p.position := by
    intro j p hj
    simpa using h2 j p hj
  simp only
  subst h5b
  by_cases he : ls1.drop (info.dimensions.columns * info.dimensions.rows).toNat = []
  · refine ⟨pts, [], .ok (), ?_, h5a, hpos, TraceFrom.nil _, ?_⟩
    · rw [if_pos (by rw [he]; rfl), h1]
      simp
    · rw [if_pos he]
      exact ⟨rfl, rfl⟩
  · obtain ⟨⟨tail, out⟩, hr⟩ := readScansFrom_total io _ (k + 1)
      (ls1.drop (info.dimensions.columns * info.dimensions.rows).toNat) (le_refl _)
    refine ⟨pts, tail, out, ?_, h5a, hpos, readScansFrom_trace io _ _ _ _ _ (le_refl _) hr, ?_⟩
    · rw [if_neg (by simpa [eof] using he), hr, h1]
    · rw [if_neg he]
      exact hr

/-! ## Claims about the points of a scan -/

/-- For a scan whose header is accepted with dimensions `(c, r)`, `0 ≤ c`,
`0 ≤ r`, of which the product fits an `int`, and whose `c * r` record lines are
there and well formed, `readScans` delivers exactly `c * r` points to the sink of
that scan, and their raster positions are the pairs of `{0..c-1} x {0..r-1}`,
each of them once. The scan is the one whose header stands where the reader is
after `n` complete scans. -/
theorem readScans_scan_points {F : Type} [Zero F] [One F] (io : TextLib F)
    (lines : List Line) (n : Nat) (pre : List (Event F)) (ls ls1 : List Line)
    (info : ScanInfo F)
    (hpos : runPrefix io n 0 lines = some (pre, ls))
    (hhdr : readHeader io ls = (.ok (info, true), ls1))
    (hc : 0 ≤ info.dimensions.columns) (hr : 0 ≤ info.dimensions.rows)
    (hfit : info.dimensions.columns * info.dimensions.rows ≤ 2147483647)
    (hlen : (info.dimensions.columns * info.dimensions.rows).toNat ≤ ls1.length)
    (hrec : ∀ l ∈ ls1.take (info.dimensions.columns * info.dimensions.rows).toNat,
      recordOk io l = true) :
    ∃ trace out, readScans io lines = some (trace, out) ∧
      (scanStarts trace).get? n = some info ∧
      ((sinkPoints n trace).length : Int) = info.dimensions.columns * info.dimensions.rows ∧
      (positions (sinkPoints n trace)).Nodup ∧
      ∀ pos : RasterPosition, pos ∈ positions (sinkPoints n trace) ↔
        (0 ≤ pos.column ∧ pos.column < info.dimensions.columns ∧
          0 ≤ pos.row ∧ pos.row < info.dimensions.rows) := by
  have h0 : 0 ≤ info.dimensions.columns * info.dimensions.rows := Int.mul_nonneg hc hr
  obtain ⟨pts, tail, out, hrun, hplen, hppos, htail, -⟩ :=
    readScansFrom_wellformed io n ls ls1 info hhdr h0 hfit hlen hrec
  obtain ⟨hpre1, hpre2, hpre3⟩ := runPrefix_run io n 0 lines pre ls hpos
  have hrun0 := hpre1 _ (by rw [Nat.zero_add]; exact hrun)
  simp only at hrun0
  obtain ⟨hcr, hrr⟩ := readHeader_true_range io _ _ _ hhdr
  refine ⟨_, out, hrun0, ?_, ?_⟩
  · rw [scanStarts_append, List.get?_append_right (by omega), hpre2]
    simp [scanStarts]
  have hsink : sinkPoints n (pre ++ Event.scanStart info :: (pts.map (Event.insert n) ++ tail))
      = pts := by
    simp [sinkPoints_append, sinkPoints, sinkPoints_inserts, hpre3 n (by omega),
      htail.sinkPoints_below n (by omega)]
  rw [hsink]
  refine ⟨?_, ?_⟩
  · rw [hplen]
    exact Int.toNat_of_nonneg h0
  have hgrid := grid_positions info.dimensions.columns.toNat info.dimensions.rows.toNat
    (positions pts) (by
      unfold positions
      rw [List.length_map, hplen]
      have e : (((info.dimensions.columns * info.dimensions.rows).toNat : Nat) : Int)
          = ((info.dimensions.columns.toNat * info.dimensions.rows.toNat : Nat) : Int) := by
        push_cast
        rw [Int.toNat_of_nonneg h0, Int.toNat_of_nonneg hc, Int.toNat_of_nonneg hr]
      exact_mod_cast e) (by
      intro j pos hj
      unfold positions at hj
      rw [List.get?_map] at hj
      rcases hpj : pts.get? j with _ | p
      · rw [hpj] at hj
        simp at hj
      rw [hpj] at hj
      simp only [Option.map_some', Option.some.injEq] at hj
      subst hj
      have hjlt : j < pts.length := by
        by_contra hcon
        rw [List.get?_eq_none.mpr (by omega)] at hpj
        cases hpj
      have hjlt2 : (j : Int) < info.dimensions.columns * info.dimensions.rows := by
        rw [hplen] at hjlt
        omega
      obtain ⟨hrow, hcol⟩ := rasterPosition_of_nonneg info j p.position hcr.2 hr hrr.2 hjlt2
        (hppos j p hpj)
      rcases hpp : p.position with ⟨col, row⟩
      rw [hpp] at hrow hcol
      simp only at hrow hcol
      rw [hrow, hcol, Int.natCast_div, Int.natCast_mod, Int.toNat_of_nonneg hr])
  rw [Int.toNat_of_nonneg hc, Int.toNat_of_nonneg hr] at hgrid
  exact hgrid

theorem readScans_scan_points_witness :
    runPrefix specLib 1 0 twoScans = some (twoScansTrace.take 3, twoScans.drop 12) ∧
    readHeader specLib (twoScans.drop 12) = (.ok (headerInfo 2 2, true), twoScans.drop 22) ∧
    ∃ trace out, readScans specLib twoScans = some (trace, out) ∧
      (scanStarts trace).get? 1 = some (headerInfo 2 2) ∧
      ((sinkPoints 1 trace).length : Int) = 2 * 2 ∧
      (positions (sinkPoints 1 trace)).Nodup ∧
      ∀ pos : RasterPosition, pos ∈ positions (sinkPoints 1 trace) ↔
        (0 ≤ pos.column ∧ pos.column < 2 ∧ 0 ≤ pos.row ∧ pos.row < 2) :=
  ⟨by decide, by decide,
   readScans_scan_points specLib twoScans 1 (twoScansTrace.take 3) (twoScans.drop 12)
     (twoScans.drop 22) (headerInfo 2 2) (by decide) (by decide) (by decide) (by decide)
     (by decide) (by decide) (by decide)⟩

/-- C2, amended: in every run of `readScans`, for every scan with dimensions
`(c, r)`, `0 ≤ r`, and every record index `i < c * r`, the `i`-th point handed to
the sink of that scan has the row `i mod r` and the column `i div r`. -/
theorem readScans_point_position {F : Type} [Zero F] [One F] (io : TextLib F)
    (lines : List Line) (trace : List (Event F)) (out : Except Fault Unit) (k : Nat)
    (info : ScanInfo F) (i : Nat) (p : Point F)
    (hrun : readScans io lines = some (trace, out))
    (hinfo : (scanStarts trace).get? k = some info)
    (hr : 0 ≤ info.dimensions.rows)
    (hi : (i : Int) < info.dimensions.columns * info.dimensions.rows)
    (hp : (sinkPoints k trace).get? i = some p) :
    p.position.row = (i : Int) % info.dimensions.rows ∧
    p.position.column = (i : Int) / info.dimensions.rows := by
  have ht := readScansFrom_trace io _ 0 lines trace out (le_refl _) hrun
  obtain ⟨hcr, hrr, -, hpos⟩ := ht.points k info hinfo
  rw [Nat.zero_add] at hpos
  exact rasterPosition_of_nonneg info i p.position hcr.2 hr hrr.2 hi (hpos i p hp)

theorem readScans_point_position_witness :
    readScans specLib twoScans = some (twoScansTrace, .ok ()) ∧
    (sinkPoints 1 twoScansTrace).get? 2 = some (samplePoint 1 0) ∧
    (samplePoint 1 0).position.row = (2 : Int) % 2 ∧
    (samplePoint 1 0).position.column = (2 : Int) / 2 :=
  ⟨by decide, by decide,
   readScans_point_position specLib twoScans twoScansTrace (.ok ()) 1 (headerInfo 2 2) 2
     (samplePoint 1 0) (by decide) (by decide) (by decide) (by decide) (by decide)⟩

/-- C2, as stated, fails: a header with the dimensions `(-2, -1)` is accepted and
two records are read; the point of index 1 has the row 1 and the column 0,
whereas `1 mod -1 = 0` and `1 div -1 = -1`. -/
theorem readScans_negative_counterexample :
    readScans specLib negativeScan
      = some ([Event.scanStart (headerInfo (-2) (-1)),
          Event.insert 0 (samplePoint 0 0), Event.insert 0 (samplePoint 0 1)], .ok ()) ∧
    (1 : Int) < (-2) * (-1) ∧
    (samplePoint 0 1).position ≠ ⟨(1 : Int) / (-1), (1 : Int) % (-1)⟩ := by
  decide


theorem readHeader_headerLines (rest : List Line) :
    readHeader specLib (headerLines "65536" "65536" ++ rest)
      = (.ok (headerInfo 65536 65536, true), rest) := by
  have h1 : stoi (ln "65536") = some 65536 := by decide
  have h2 : parseRegistration specLib (ln "1 0 0") (ln "0 1 0") (ln "0 0 1") (ln "0 0 0")
      = .ok ⟨identity Dec, zeros Dec⟩ := by decide
  show readHeader specLib (ln "65536" :: ln "65536" :: ln "0 0 0" :: ln "1 0 0" :: ln "0 1 0"
    :: ln "0 0 1" :: ln "1 0 0" :: ln "0 1 0" :: ln "0 0 1" :: ln "0 0 0" :: rest) = _
  rw [readHeader_ten, h1, h2]
  rfl

theorem readHeader_zeroRecords (rest : List Line) :
    readHeader specLib (List.replicate 10 zeroRecord ++ rest) = (.ok (zeroInfo, true), rest) := by
  have h1 : stoi zeroRecord = some 0 := by decide
  have h2 : parseRegistration specLib zeroRecord zeroRecord zeroRecord zeroRecord
      = .ok zeroInfo.registration := by decide
  show readHeader specLib (zeroRecord :: zeroRecord :: zeroRecord :: zeroRecord :: zeroRecord
    :: zeroRecord :: zeroRecord :: zeroRecord :: zeroRecord :: zeroRecord :: rest) = _
  rw [readHeader_ten, h1, h2]
  rfl

/-- The reader on a header of 65536 x 65536 records that more than ten lines
`zeroRecord` follow: the record count that the code computes is 0, and the
record lines are taken for headers. -/
theorem readScans_overflow (m : Nat) :
    ∃ tail out, TraceFrom 2 tail ∧
      readScans specLib (headerLines "65536" "65536" ++ List.replicate (m + 11) zeroRecord)
        = some (Event.scanStart (headerInfo 65536 65536)
            :: Event.scanStart zeroInfo :: tail, out) := by
  have htot : totalLines (headerInfo 65536 65536) = 0 := by decide
  have htot2 : totalLines zeroInfo = 0 := by decide
  have hrep : List.replicate (m + 11) zeroRecord
      = List.replicate 10 zeroRecord ++ List.replicate (m + 1) zeroRecord := by
    rw [← List.replicate_add]
    congr 1
    omega
  obtain ⟨⟨tail, out⟩, hr⟩ := readScansFrom_total specLib _ 2
    (List.replicate (m + 1) zeroRecord) (le_refl _)
  have htr := readScansFrom_trace specLib _ _ _ _ _ (le_refl _) hr
  have hne : ∀ n : Nat, ¬ eof (List.replicate (n + 1) zeroRecord) = true := by
    intro n
    simp [eof, List.replicate]
  have hrun1 : readScansFrom specLib 1 (List.replicate (m + 11) zeroRecord)
      = some (Event.scanStart zeroInfo :: tail, out) := by
    rw [readScansFrom_scan specLib 1 _ _ _ (by rw [hrep]; exact readHeader_zeroRecords _),
      htot2, streamPoints_done _ _ _ _ _ _ (by omega)]
    simp only
    rw [if_neg (hne m), hr]
    rfl
  refine ⟨tail, out, htr, ?_⟩
  unfold readScans
  rw [readScansFrom_scan specLib 0 _ _ _ (readHeader_headerLines _), htot,
    streamPoints_done _ _ _ _ _ _ (by omega)]
  simp only
  rw [if_neg (hne (m + 10)), hrun1]
  rfl


/-! ## The record count of large scans -/

/-- C1: on a scan of 65536 x 65536 well-formed records the code computes the
record count `65536 * 65536` in `int`, which gives 0: the header is accepted and
no point is delivered to the sink of the scan, instead of `2 ^ 32` points. -/
theorem readScans_overflow_points :
    runPrefix specLib 0 0 overflowScan = some ([], overflowScan) ∧
    readHeader specLib overflowScan
      = (.ok (headerInfo 65536 65536, true), List.replicate 4294967296 zeroRecord) ∧
    (headerInfo 65536 65536).dimensions.columns * (headerInfo 65536 65536).dimensions.rows
      = 4294967296 ∧
    (List.replicate 4294967296 zeroRecord).length = 4294967296 ∧
    (∀ l ∈ List.replicate 4294967296 zeroRecord, recordOk specLib l = true) ∧
    totalLines (headerInfo 65536 65536) = 0 ∧
    ∃ trace out, readScans specLib overflowScan = some (trace, out) ∧
      (scanStarts trace).get? 0 = some (headerInfo 65536 65536) ∧
      sinkPoints 0 trace = [] := by
  refine ⟨rfl, readHeader_headerLines _, by decide, List.length_replicate _ _, ?_, by decide, ?_⟩
  · intro l hl
    rw [List.eq_of_mem_replicate hl]
    decide
  · obtain ⟨tail, out, htr, hrun⟩ := readScans_overflow 4294967285
    refine ⟨_, out, hrun, rfl, ?_⟩
    simp only [sinkPoints]
    exact htr.sinkPoints_below 0 (by omega)

/-- C3: on an input that consists of one scan of 65536 x 65536 well-formed
records, the scan-start callback is invoked a second time, with a `ScanInfo` made
of ten record lines. -/
theorem readScans_overflow_count :
    isScanText specLib (headerInfo 65536 65536) overflowScan ∧
    ∃ trace out, readScans specLib ([overflowScan].flatten) = some (trace, out) ∧
      (scanStarts trace).get? 1 = some zeroInfo ∧ 2 ≤ (scanStarts trace).length := by
  refine ⟨⟨?_, ?_, ?_⟩, ?_⟩
  · rw [show List.take 10 overflowScan = headerLines "65536" "65536" ++ [] from
      List.take_left' rfl]
    exact readHeader_headerLines []
  · rw [show List.drop 10 overflowScan = List.replicate 4294967296 zeroRecord from
      List.drop_left' rfl, List.length_replicate]
    decide
  · rw [show List.drop 10 overflowScan = List.replicate 4294967296 zeroRecord from
      List.drop_left' rfl]
    intro l hl
    rw [List.eq_of_mem_replicate hl]
    decide
  · obtain ⟨tail, out, -, hrun⟩ := readScans_overflow 4294967285
    refine ⟨Event.scanStart (headerInfo 65536 65536) :: Event.scanStart zeroInfo :: tail, out,
      ?_, ?_⟩
    · rw [show [overflowScan].flatten = overflowScan by simp]
      exact hrun
    · simp [scanStarts]

/-- C6: on a header of 65536 x 65536 records at which the stream ends, the
record count that the code computes is 0 and `readScans` returns normally. -/
theorem readScans_overflow_truncated :
    readHeader specLib (headerLines "65536" "65536")
      = (.ok (headerInfo 65536 65536, true), []) ∧
    totalLines (headerInfo 65536 65536) = 0 ∧
    readScans specLib (headerLines "65536" "65536")
      = some ([Event.scanStart (headerInfo 65536 65536)], .ok ()) := by
  decide

/-- C4: on a header whose first rotation row has two tokens and whose second
rotation row has a field that is not numeric, `parseVector3` reads `tokens[2]`
out of range on the first row; `readScans` does not return normally. -/
theorem readScans_two_defects :
    specLib.stod (ln "x") = none ∧
    readHeader specLib twoDefectsHeader = (.error .undefined, []) ∧
    readScans specLib twoDefectsHeader = some ([], .error .undefined) ∧
    readScans specLib (twoScans ++ twoDefectsHeader)
      = some (twoScansTrace, .error .undefined) := by
  decide


/-! ## Truncated streams, failed headers and the number of scans -/

/-- A stream that ends in the record block of a scan whose record count fits an
`int` makes `readScans` fail. -/
theorem readScans_truncated {F : Type} [Zero F] [One F] (io : TextLib F)
    (lines : List Line) (n : Nat) (pre : List (Event F)) (ls ls1 : List Line)
    (info : ScanInfo F)
    (hpos : runPrefix io n 0 lines = some (pre, ls))
    (hhdr : readHeader io ls = (.ok (info, true), ls1))
    (hfit : info.dimensions.columns * info.dimensions.rows ≤ 2147483647)
    (hshort : (ls1.length : Int) < info.dimensions.columns * info.dimensions.rows) :
    ∃ trace e, readScans io lines = some (trace, .error e) := by
  have htot := totalLines_of_fit info (by omega) hfit
  obtain ⟨pts, h1, h2, h3, h4, h5, h6⟩ := streamPoints_spec io info n (totalLines info) ls1 0
  obtain ⟨hpre1, -, -⟩ := runPrefix_run io n 0 lines pre ls hpos
  have hrun := readScansFrom_scan io n ls ls1 info hhdr
  rcases hs : streamPoints io info n (totalLines info) 0 ls1 with ⟨evs, o, lines2⟩
  rw [hs] at hrun h5
  simp only at hrun h5
  rcases o with e | u
  · have := hpre1 _ (by rw [Nat.zero_add]; exact hrun)
    exact ⟨_, e, this⟩
  · exfalso
    have := (h5 rfl).1
    rw [htot] at this
    omega

/-- With at least three tokens on a line, `parseVector3` returns a vector or
throws. -/
theorem parseVector3_shaped {F : Type} (io : TextLib F) (line : Line)
    (h : 3 ≤ (io.tokenize line).length) :
    (∃ v, parseVector3 io line = .ok v) ∨ parseVector3 io line = .error .exception := by
  unfold parseVector3
  rcases ht : io.tokenize line with _ | ⟨t0, _ | ⟨t1, _ | ⟨t2, more⟩⟩⟩
  all_goals (rw [ht] at h; simp only [List.length_cons, List.length_nil] at h)
  all_goals try omega
  simp only [index, List.get?, bind, Except.bind, pure, Except.pure]
  rcases io.stod t0 with _ | a0 <;> simp only [orThrow]
  · right; trivial
  rcases io.stod t1 with _ | a1 <;> simp only []
  · right; trivial
  rcases io.stod t2 with _ | a2 <;> simp only []
  · right; trivial
  · left; exact ⟨_, rfl⟩

/-- The reader stops, and returns, where a header is expected and fewer than ten
lines are left, or a dimension line is not numeric, or the rotation and
translation lines have three tokens each and `std::stod` rejects one of the
first three tokens of one of them; the scans before are delivered. -/
theorem readScans_bad_header {F : Type} [Zero F] [One F] (io : TextLib F)
    (lines : List Line) (n : Nat) (pre : List (Event F)) (ls : List Line)
    (hpos : runPrefix io n 0 lines = some (pre, ls))
    (hbad : ls.length < 10 ∨ stoi (ls.getD 0 []) = none ∨ stoi (ls.getD 1 []) = none ∨
      ((∀ l ∈ (ls.drop 6).take 4, 3 ≤ (io.tokenize l).length) ∧
        ∃ l ∈ (ls.drop 6).take 4, ∃ t ∈ (io.tokenize l).take 3, io.stod t = none)) :
    readScans io lines = some (pre, .ok ()) ∧ (scanStarts pre).length = n := by
  obtain ⟨hpre1, hpre2, -⟩ := runPrefix_run io n 0 lines pre ls hpos
  have hfail : (readHeader io ls).1 = .ok (ScanInfo.default F, false) := by
    by_cases hlen : ls.length < 10
    · exact readHeader_short io ls hlen
    obtain ⟨l1, l2, l3, l4, l5, l6, l7, l8, l9, l10, rest, rfl⟩ := exists_ten ls (by omega)
    rw [readHeader_ten]
    rcases hbad with h | h | h | ⟨hshape, l, hl, t, ht, hnone⟩
    · exact absurd h hlen
    · simp only [List.getD_cons_zero] at h
      rw [h]
    · simp only [List.getD_cons_succ, List.getD_cons_zero] at h
      rw [h]
      cases stoi l1 <;> rfl
    · rcases stoi l1 with _ | c
      · rfl
      rcases stoi l2 with _ | r
      · rfl
      simp only [List.drop_succ_cons, List.drop_zero, List.take_succ_cons, List.take_zero,
        List.mem_cons, List.not_mem_nil, or_false] at hshape hl
      have hno : ∀ v, parseVector3 io l ≠ .ok v := by
        intro v hv
        obtain ⟨t0, t1, t2, more, htk, h0, h1, h2⟩ := parseVector3_ok io l v hv
        rw [htk] at ht
        simp only [List.take_succ_cons, List.take_zero, List.mem_cons, List.not_mem_nil,
          or_false] at ht
        rcases ht with rfl | rfl | rfl
        · rw [hnone] at h0; cases h0
        · rw [hnone] at h1; cases h1
        · rw [hnone] at h2; cases h2
      have hreg : parseRegistration io l7 l8 l9 l10 = .error .exception := by
        unfold parseRegistration
        simp only [bind, Except.bind, pure, Except.pure]
        rcases parseVector3_shaped io l7 (hshape l7 (Or.inl rfl)) with ⟨v7, h7⟩ | h7
        · rw [h7]
          rcases parseVector3_shaped io l8 (hshape l8 (Or.inr (Or.inl rfl))) with ⟨v8, h8⟩ | h8
          · rw [h8]
            rcases parseVector3_shaped io l9 (hshape l9 (Or.inr (Or.inr (Or.inl rfl))))
              with ⟨v9, h9⟩ | h9
            · rw [h9]
              rcases parseVector3_shaped io l10
                (hshape l10 (Or.inr (Or.inr (Or.inr rfl)))) with ⟨v10, h10⟩ | h10
              · exfalso
                rcases hl with rfl | rfl | rfl | rfl
                · exact hno _ h7
                · exact hno _ h8
                · exact hno _ h9
                · exact hno _ h10
              · rw [h10]
            · rw [h9]
          · rw [h8]
        · rw [h7]
      simp only [hreg]
  have hrun := readScansFrom_stop io n ls _ hfail
  have := hpre1 _ (by rw [Nat.zero_add]; exact hrun)
  simp only [List.append_nil] at this
  exact ⟨this, hpre2⟩

/-- An accepted header is accepted with the same `ScanInfo` whatever follows
it. -/
theorem readHeader_append {F : Type} [Zero F] [One F] (io : TextLib F)
    (hdr rest : List Line) (info : ScanInfo F)
    (h : readHeader io hdr = (.ok (info, true), [])) :
    readHeader io (hdr ++ rest) = (.ok (info, true), rest) ∧ hdr.length = 10 := by
  obtain ⟨l1, l2, l3, l4, l5, l6, l7, l8, l9, l10, rfl, hc, hr, hreg⟩ :=
    readHeader_true io _ _ _ h
  refine ⟨?_, rfl⟩
  simp only [List.cons_append, List.nil_append]
  rw [readHeader_ten, hc, hr, hreg]

/-- On an input that is the concatenation of `N` well-formed scans whose record
counts fit an `int`, `readScans` returns normally and the scan-start callback
receives the `ScanInfo`s of the `N` headers, in the order of the file. -/
theorem readScans_scan_count {F : Type} [Zero F] [One F] (io : TextLib F)
    (scans : List (ScanInfo F × List Line))
    (h : ∀ s ∈ scans, isScanText io s.1 s.2 ∧
      s.1.dimensions.columns * s.1.dimensions.rows ≤ 2147483647) :
    ∃ trace, readScans io (scans.map Prod.snd).flatten = some (trace, .ok ()) ∧
      scanStarts trace = scans.map Prod.fst := by
  have key : ∀ (scans : List (ScanInfo F × List Line)) (k : Nat),
      (∀ s ∈ scans, isScanText io s.1 s.2 ∧
        s.1.dimensions.columns * s.1.dimensions.rows ≤ 2147483647) →
      ∃ trace, readScansFrom io k (scans.map Prod.snd).flatten = some (trace, .ok ()) ∧
        scanStarts trace = scans.map Prod.fst := by
    intro scans
    induction scans with
    | nil =>
      intro k _
      exact ⟨[], readScansFrom_stop io k [] _ (readHeader_short io [] (by simp)), rfl⟩
    | cons s rest ih =>
      intro k hs
      obtain ⟨⟨hhdr, hcount, hrec⟩, hfit⟩ := hs s (List.mem_cons_self _ _)
      obtain ⟨info, text⟩ := s
      simp only at hhdr hcount hrec hfit
      have hrest := ih (k + 1) (fun s hs2 => hs s (List.mem_cons_of_mem _ hs2))
      obtain ⟨tr2, hrun2, hst2⟩ := hrest
      have hsplit : text = text.take 10 ++ text.drop 10 := (List.take_append_drop 10 text).symm
      obtain ⟨hhdr2, hlen10⟩ := readHeader_append io (text.take 10)
        (text.drop 10 ++ (rest.map Prod.snd).flatten) info hhdr
      have hlines : (List.map Prod.snd ((info, text) :: rest)).flatten
          = text.take 10 ++ (text.drop 10 ++ (rest.map Prod.snd).flatten) := by
        simp only [List.map_cons, List.flatten_cons]
        rw [← List.append_assoc, List.take_append_drop]
      have h0 : 0 ≤ info.dimensions.columns * info.dimensions.rows := by
        rw [← hcount]
        exact Int.natCast_nonneg _
      have hn : (info.dimensions.columns * info.dimensions.rows).toNat
          = (text.drop 10).length := by
        rw [← hcount]
        simp
      obtain ⟨pts, tail, out, hrun, -, -, -, hif⟩ := readScansFrom_wellformed io k _ _ info hhdr2
        h0 hfit (by rw [hn]; simp) (by
          rw [hn, List.take_left' rfl]
          exact hrec)
      rw [hn, List.drop_left' rfl] at hif
      rw [hlines, hrun]
      by_cases hemp : (rest.map Prod.snd).flatten = []
      · rw [if_pos hemp] at hif
        obtain ⟨rfl, rfl⟩ := hif
        rw [hemp] at hrun2
        rw [readScansFrom_stop io (k + 1) [] _ (readHeader_short io [] (by simp))] at hrun2
        simp only [Option.some.injEq, Prod.mk.injEq, and_true] at hrun2
        subst hrun2
        refine ⟨_, rfl, ?_⟩
        simp only [scanStarts, scanStarts_append, scanStarts_inserts, List.append_nil,
          List.map_cons]
        rw [← hst2]
        rfl
      · rw [if_neg hemp, hrun2] at hif
        simp only [Option.some.injEq, Prod.mk.injEq] at hif
        obtain ⟨rfl, rfl⟩ := hif
        refine ⟨_, rfl, ?_⟩
        simp only [scanStarts, scanStarts_append, scanStarts_inserts, List.nil_append,
          List.map_cons, hst2]
  exact key scans 0 h

theorem readScans_scan_count_witness :
    ∃ trace, readScans specLib
        ([(headerInfo 1 2, twoScans.take 12), (headerInfo 2 2, twoScans.drop 12)].map
          Prod.snd).flatten = some (trace, .ok ()) ∧
      scanStarts trace = [headerInfo 1 2, headerInfo 2 2] :=
  readScans_scan_count specLib
    [(headerInfo 1 2, twoScans.take 12), (headerInfo 2 2, twoScans.drop 12)] (by
      intro s hs
      simp only [List.mem_cons, List.mem_singleton, List.not_mem_nil, or_false] at hs
      rcases hs with rfl | rfl
      · exact ⟨⟨by decide, by decide, by decide⟩, by decide⟩
      · exact ⟨⟨by decide, by decide, by decide⟩, by decide⟩)

theorem readScans_truncated_witness :
    ∃ trace e, readScans specLib (twoScans.take 25) = some (trace, .error e) :=
  readScans_truncated specLib (twoScans.take 25) 1 (twoScansTrace.take 3)
    ((twoScans.take 25).drop 12) ((twoScans.take 25).drop 22) (headerInfo 2 2)
    (by decide) (by decide) (by decide) (by decide)

theorem readScans_bad_header_witness :
    readScans specLib (twoScans.take 12 ++ badColumnsHeader)
      = some (twoScansTrace.take 3, .ok ()) ∧ (scanStarts (twoScansTrace.take 3)).length = 1 :=
  readScans_bad_header specLib (twoScans.take 12 ++ badColumnsHeader) 1 (twoScansTrace.take 3)
    badColumnsHeader (by decide) (Or.inr (Or.inl (by decide)))


/-! ## Dimensions, unsampled points and vectors -/

/-- The sign of the value of `std::stoi` is the sign that the text shows. -/
theorem stoi_sign (s : Line) (v : Int) (h : stoi s = some v) :
    (startsWithMinus s = false → 0 ≤ v) ∧ (startsWithMinus s = true → v ≤ 0) := by
  unfold stoi at h
  unfold startsWithMinus
  dsimp only at h
  split_ifs at h
  all_goals (injection h with h; subst h; refine ⟨fun hf => ?_, fun ht => ?_⟩)
  all_goals first | omega | simp_all

/-- The dimensions that the callback receives are values of an `int`. -/
theorem TraceFrom.range {F : Type} {k : Nat} {trace : List (Event F)}
    (h : TraceFrom k trace) : ∀ info ∈ scanStarts trace,
      inIntRange info.dimensions.columns ∧ inIntRange info.dimensions.rows := by
  intro info hmem
  obtain ⟨n, hn⟩ := List.get?_of_mem hmem
  obtain ⟨hc, hr, -⟩ := h.points n info hn
  exact ⟨hc, hr⟩

/-- C11, as stated, fails: a header whose dimension lines are `-2` and `-1` is
accepted, and the callback of `readScans` receives these negative dimensions. -/
theorem readHeader_negative_counterexample :
    readHeader specLib (headerLines "-2" "-1") = (.ok (headerInfo (-2) (-1), true), []) ∧
    (readScans specLib negativeScan).map (fun r => scanStarts r.1)
      = some [headerInfo (-2) (-1)] ∧
    ¬ (0 ≤ (headerInfo (-2) (-1)).dimensions.columns) ∧
    ¬ (0 ≤ (headerInfo (-2) (-1)).dimensions.rows) := by
  decide

/-- C11, amended: for every header that `readHeader` accepts, the columns and
the rows are values of an `int`, each of them non-negative when its line does not
start with a minus sign; and every `ScanInfo` that `readScans` passes to the
scan-start callback has columns and rows that are values of an `int`. -/
theorem readHeader_dimensions_sign {F : Type} [Zero F] [One F] (io : TextLib F)
    (lines rest : List Line) (info : ScanInfo F)
    (h : readHeader io lines = (.ok (info, true), rest)) :
    inIntRange info.dimensions.columns ∧ inIntRange info.dimensions.rows ∧
    (startsWithMinus (lines.getD 0 []) = false → 0 ≤ info.dimensions.columns) ∧
    (startsWithMinus (lines.getD 1 []) = false → 0 ≤ info.dimensions.rows) ∧
    ∀ (ls : List Line) (trace : List (Event F)) (out : Except Fault Unit),
      readScans io ls = some (trace, out) → ∀ i ∈ scanStarts trace,
        inIntRange i.dimensions.columns ∧ inIntRange i.dimensions.rows := by
  obtain ⟨l1, l2, l3, l4, l5, l6, l7, l8, l9, l10, rfl, hc, hr, -⟩ :=
    readHeader_true io _ _ _ h
  refine ⟨stoi_range _ _ hc, stoi_range _ _ hr, (stoi_sign _ _ hc).1, (stoi_sign _ _ hr).1, ?_⟩
  intro ls trace out hrun
  exact (readScansFrom_trace io _ 0 ls trace out (le_refl _) hrun).range

theorem readHeader_dimensions_sign_witness :
    readHeader specLib (headerLines "7" "8") = (.ok (headerInfo 7 8, true), []) ∧
    (0 : Int) ≤ 7 ∧ (0 : Int) ≤ 8 :=
  have w := readHeader_dimensions_sign specLib (headerLines "7" "8") [] (headerInfo 7 8)
    (by decide)
  ⟨by decide, w.2.2.1 (by decide), w.2.2.2.1 (by decide)⟩

/-- C12: a point is unsampled exactly when its three coordinates are zero; this
does not depend on the raster position, the intensity or the colour; and the
reference sink keeps a point exactly when it is not unsampled. -/
theorem unsampled_iff {F : Type} [DecidableEq F] [Zero F] (p : Point F) :
    (p.unsampled = true ↔ p.x = 0 ∧ p.y = 0 ∧ p.z = 0) ∧
    (∀ (position : RasterPosition) (intensity : F) (r g b : Nat),
      (p.recoloured position intensity r g b).unsampled = p.unsampled) ∧
    (∀ m_points : List (Point F),
      (p.unsampled = false → PointInserter.insert m_points p = m_points ++ [p]) ∧
      (p.unsampled = true → PointInserter.insert m_points p = m_points)) := by
  refine ⟨?_, fun _ _ _ _ _ => rfl, fun m => ⟨fun h => ?_, fun h => ?_⟩⟩
  · unfold Point.unsampled
    simp only [Bool.and_eq_true, decide_eq_true_eq, and_assoc]
  · unfold PointInserter.insert
    simp [h]
  · unfold PointInserter.insert
    simp [h]

theorem splitOnChar_ne_nil (d : Char) (s : Line) : splitOnChar d s ≠ [] := by
  cases s with
  | nil => simp [splitOnChar]
  | cons c cs =>
    unfold splitOnChar
    split_ifs
    · simp
    · split <;> simp

/-- The tokens of a line to which a delimiter and more text are appended are
the tokens of the line followed by the tokens of that text. -/
theorem splitOnChar_append (d : Char) (a b : Line) :
    splitOnChar d (a ++ d :: b) = splitOnChar d a ++ splitOnChar d b := by
  induction a with
  | nil => simp [splitOnChar]
  | cons c a ih =>
    by_cases hc : c = d
    · simp only [List.cons_append, splitOnChar, hc, if_true, List.append_eq, ih]
    · rcases hs : splitOnChar d a with _ | ⟨t, ts⟩
      · exact absurd hs (splitOnChar_ne_nil d a)
      · simp only [List.cons_append, splitOnChar, hc, if_false, List.append_eq, ih, hs]

/-- C13: on a line with at least three tokens of which `std::stod` accepts the
first three, `parseVector3` returns the vector of the three values, in order; and
with the tokenizer that splits at every space, appending a space and further
text to the line leaves the result unchanged. -/
theorem parseVector3_first_three {F : Type} (io : TextLib F) (line t0 t1 t2 : Line)
    (more : List Line) (a0 a1 a2 : F)
    (ht : io.tokenize line = t0 :: t1 :: t2 :: more)
    (h0 : io.stod t0 = some a0) (h1 : io.stod t1 = some a1) (h2 : io.stod t2 = some a2) :
    parseVector3 io line = .ok ⟨a0, a1, a2⟩ ∧
    (io.tokenize = splitOnChar ' ' → ∀ extra : Line,
      parseVector3 io (line ++ ' ' :: extra) = .ok ⟨a0, a1, a2⟩) := by
  have key : ∀ (l : Line) (rest : List Line), io.tokenize l = t0 :: t1 :: t2 :: rest →
      parseVector3 io l = .ok ⟨a0, a1, a2⟩ := by
    intro l rest hl
    simp [parseVector3, hl, index, h0, h1, h2, orThrow, bind, Except.bind, pure, Except.pure]
  refine ⟨key line more ht, ?_⟩
  intro htok extra
  apply key _ (more ++ splitOnChar ' ' extra)
  rw [htok] at ht ⊢
  rw [splitOnChar_append, ht]
  rfl

theorem parseVector3_first_three_witness :
    specLib.tokenize (ln "1.5 -2 3") = [ln "1.5", ln "-2", ln "3"] ∧
    parseVector3 specLib (ln "1.5 -2 3") = .ok ⟨⟨15, 1⟩, ⟨-2, 0⟩, ⟨3, 0⟩⟩ ∧
    parseVector3 specLib (ln "1.5 -2 3" ++ ' ' :: ln "4 five") = .ok ⟨⟨15, 1⟩, ⟨-2, 0⟩, ⟨3, 0⟩⟩ :=
  have w := parseVector3_first_three specLib (ln "1.5 -2 3") (ln "1.5") (ln "-2") (ln "3") []
    ⟨15, 1⟩ ⟨-2, 0⟩ ⟨3, 0⟩ (by decide) (by decide) (by decide) (by decide)
  ⟨by decide, w.1, w.2 rfl (ln "4 five")⟩


theorem unsampled_iff_witness :
    (samplePoint 0 0).unsampled = false ∧
    PointInserter.insert [] (samplePoint 0 0) = [samplePoint 0 0] ∧
    ((samplePoint 0 0).recoloured ⟨3, 4⟩ 0 1 2 3).unsampled = false :=
  have w := unsampled_iff (samplePoint 0 0)
  ⟨by decide, (w.2.2 []).1 (by decide), (w.2.1 ⟨3, 4⟩ 0 1 2 3).trans (by decide)⟩

/-! ## The order of the events -/

/-- Before a point goes to the sink `j`, the callback has been invoked `j + 1`
times when the trace starts at scan 0, and `j + 1 - k` times when it starts at
scan `k`. -/
theorem TraceFrom.order {F : Type} {k : Nat} {trace : List (Event F)}
    (h : TraceFrom k trace) : ∀ (idx j : Nat) (p : Point F),
      trace.get? idx = some (Event.insert j p) →
      (scanStarts (trace.take idx)).length + k = j + 1 := by
  induction h with
  | nil k => intro idx j p hget; simp at hget
  | block k info pts tail _ _ _ _ _ _ ih =>
    intro idx j p hget
    rcases idx with _ | i
    · simp at hget
    simp only [List.get?_cons_succ] at hget
    simp only [List.take_succ_cons, scanStarts]
    by_cases hi : i < pts.length
    · rw [List.get?_append (by simpa using hi), List.get?_map] at hget
      rcases hp : pts.get? i with _ | q
      · rw [hp] at hget; simp at hget
      rw [hp] at hget
      simp only [Option.map_some', Option.some.injEq, Event.insert.injEq] at hget
      rw [List.take_append_of_le_length (by simpa using Nat.le_of_lt hi), ← List.map_take,
        scanStarts_inserts]
      simp only [List.length_cons, List.length_nil]
      omega
    · have hlen : (pts.map (Event.insert k)).length ≤ i := by simpa using Nat.le_of_not_lt hi
      rw [List.get?_append_right hlen] at hget
      have := ih _ j p hget
      rw [List.take_append_eq_append_take, List.take_of_length_le hlen, scanStarts_append,
        scanStarts_inserts]
      simp only [List.nil_append, List.length_cons]
      omega

/-- C15: in the trace of every run of `readScans`, a point that is inserted into
the sink of the `j`-th invocation of the callback comes when the callback has been
invoked exactly `j + 1` times: after the invocation for scan `j`, into the sink
of that invocation, and before the invocation for scan `j + 1`. -/
theorem readScans_event_order {F : Type} [Zero F] [One F] (io : TextLib F)
    (lines : List Line) (trace : List (Event F)) (out : Except Fault Unit)
    (hrun : readScans io lines = some (trace, out)) :
    ∀ (idx j : Nat) (p : Point F), trace.get? idx = some (Event.insert j p) →
      (scanStarts (trace.take idx)).length = j + 1 := by
  intro idx j p hget
  have := (readScansFrom_trace io _ 0 lines trace out (le_refl _) hrun).order idx j p hget
  omega

theorem readScans_event_order_witness :
    readScans specLib twoScans = some (twoScansTrace, .ok ()) ∧
    twoScansTrace.get? 5 = some (Event.insert 1 (samplePoint 0 1)) ∧
    (scanStarts (twoScansTrace.take 5)).length = 1 + 1 :=
  ⟨by decide, by decide,
   readScans_event_order specLib twoScans twoScansTrace (.ok ()) (by decide) 5 1
     (samplePoint 0 1) (by decide)⟩

/-! ## Scans without records -/

/-- C16: for an accepted header with `columns * rows = 0`, `readScans` invokes
the scan-start callback for that scan, reads no record line and delivers no point
to its sink, and then stops when the stream is at its end, and otherwise goes on
with the header that starts at the line after this header. -/
theorem readScans_empty_scan {F : Type} [Zero F] [One F] (io : TextLib F)
    (lines : List Line) (n : Nat) (pre : List (Event F)) (ls ls1 : List Line)
    (info : ScanInfo F)
    (hpos : runPrefix io n 0 lines = some (pre, ls))
    (hhdr : readHeader io ls = (.ok (info, true), ls1))
    (hzero : info.dimensions.columns * info.dimensions.rows = 0) :
    totalLines info = 0 ∧ ls1 = ls.drop 10 ∧
    streamPoints io info n (totalLines info) 0 ls1 = ([], .ok (), ls1) ∧
    ∃ tail out, readScans io lines = some (pre ++ Event.scanStart info :: tail, out) ∧
      (scanStarts (pre ++ Event.scanStart info :: tail)).get? n = some info ∧
      sinkPoints n (pre ++ Event.scanStart info :: tail) = [] ∧
      (ls1 = [] → tail = [] ∧ out = .ok ()) ∧
      (ls1 ≠ [] → readScansFrom io (n + 1) ls1 = some (tail, out)) := by
  have htot : totalLines info = 0 := by
    unfold totalLines
    rw [hzero]
    decide
  have hsp : streamPoints io info n (totalLines info) 0 ls1 = ([], .ok (), ls1) := by
    rw [htot]
    exact streamPoints_done io info n 0 0 ls1 (by omega)
  obtain ⟨hpre1, hpre2, hpre3⟩ := runPrefix_run io n 0 lines pre ls hpos
  have hrun := readScansFrom_scan io n ls ls1 info hhdr
  rw [hsp] at hrun
  simp only [List.nil_append] at hrun
  refine ⟨htot, (readHeader_true_length io _ _ _ hhdr).2, hsp, ?_⟩
  have hstart : ∀ tail : List (Event F),
      (scanStarts (pre ++ Event.scanStart info :: tail)).get? n = some info := by
    intro tail
    rw [scanStarts_append, List.get?_append_right (by omega), hpre2]
    simp [scanStarts]
  by_cases he : ls1 = []
  · subst he
    rw [if_pos (show eof ([] : List Line) = true from rfl)] at hrun
    have := hpre1 _ (by rw [Nat.zero_add]; exact hrun)
    refine ⟨[], .ok (), this, hstart [], ?_, fun _ => ⟨rfl, rfl⟩, fun h => absurd rfl h⟩
    simp [sinkPoints_append, sinkPoints, hpre3 n (by omega)]
  · rw [if_neg (by simpa [eof] using he)] at hrun
    obtain ⟨⟨tail, out⟩, hr⟩ := readScansFrom_total io _ (n + 1) ls1 (le_refl _)
    rw [hr] at hrun
    have := hpre1 _ (by rw [Nat.zero_add]; exact hrun)
    have htr := readScansFrom_trace io _ _ _ _ _ (le_refl _) hr
    refine ⟨tail, out, this, hstart tail, ?_, fun h => absurd h he, fun _ => hr⟩
    simp [sinkPoints_append, sinkPoints, hpre3 n (by omega), htr.sinkPoints_below n (by omega)]

theorem readScans_empty_scan_witness :
    readHeader specLib emptyScanFile = (.ok (headerInfo 3 0, true), emptyScanFile.drop 10) ∧
    ∃ tail out, readScans specLib emptyScanFile
        = some ([] ++ Event.scanStart (headerInfo 3 0) :: tail, out) ∧
      sinkPoints 0 ([] ++ Event.scanStart (headerInfo 3 0) :: tail) = [] ∧
      (emptyScanFile.drop 10 ≠ [] →
        readScansFrom specLib (0 + 1) (emptyScanFile.drop 10) = some (tail, out)) :=
  have w := readScans_empty_scan specLib emptyScanFile 0 [] emptyScanFile
    (emptyScanFile.drop 10) (headerInfo 3 0) (by decide) (by decide) (by decide)
  ⟨by decide, w.2.2.2.imp fun _ h => h.imp fun _ h => ⟨h.1, h.2.2.1, h.2.2.2.2⟩⟩

/-! ## Division by zero and termination -/

/-- A fault of `parseLine` is a failed assertion or an exception. -/
theorem parseLine_not_undefined {F : Type} (io : TextLib F) (line : Line)
    (pos : RasterPosition) (k : Nat) :
    (parseLine io line pos k).2 ≠ .error .undefined := by
  unfold parseLine
  by_cases h : (io.tokenize line).length ≠ 7
  · rw [if_pos h]
    simp
  · rw [if_neg h]
    rcases ht : io.tokenize line with _ | ⟨t0, _ | ⟨t1, _ | ⟨t2, _ | ⟨t3, _ | ⟨t4, _ | ⟨t5,
      _ | ⟨t6, _ | ⟨t7, more⟩⟩⟩⟩⟩⟩⟩⟩
    all_goals (rw [ht] at h; simp only [List.length_cons, List.length_nil] at h)
    all_goals try omega
    simp only [parsePoint, index, List.get?, bind, Except.bind, pure, Except.pure]
    rcases io.stor t0 with _ | x <;> simp only [orThrow]
    · simp
    rcases io.stor t1 with _ | y <;> simp only []
    · simp
    rcases io.stor t2 with _ | z <;> simp only []
    · simp
    rcases io.stor t3 with _ | i <;> simp only []
    · simp
    rcases io.stou t4 with _ | r <;> simp only []
    · simp
    rcases io.stou t5 with _ | g <;> simp only []
    · simp
    rcases io.stou t6 with _ | b <;> simp only []
    · simp
    · simp

/-- The record loop does not divide by zero when the row count is not zero
whenever there is a record to read. -/
theorem streamPoints_not_undefined {F : Type} (io : TextLib F) (info : ScanInfo F)
    (k total : Nat) (hrows : total ≠ 0 → toSizeT info.dimensions.rows ≠ 0) :
    ∀ (lines : List Line) (i : Nat),
      (streamPoints io info k total i lines).2.1 ≠ .error .undefined := by
  intro lines
  induction lines with
  | nil =>
    intro i
    by_cases h : i < total
    · rw [streamPoints, if_pos h]
      unfold rasterPosition
      simp only [hrows (by omega), if_false]
      simp
    · rw [streamPoints_done io info k total i [] h]
      simp
  | cons line rest ih =>
    intro i
    by_cases h : i < total
    · have hpos : ∃ pos, rasterPosition info i = .ok pos := by
        unfold rasterPosition
        simp only [hrows (by omega), if_false]
        exact ⟨_, rfl⟩
      obtain ⟨pos, hpos⟩ := hpos
      rw [streamPoints_cons io info k total i line rest pos h hpos]
      have hne := parseLine_not_undefined io line pos k
      rcases hp : parseLine io line pos k with ⟨evs, o⟩
      rw [hp] at hne
      rcases o with e | u
      · simpa using hne
      · exact ih (i + 1)
    · rw [streamPoints_done io info k total i _ h]
      simp

/-- C17: for every accepted header, a row count of 0 gives a record count of 0,
and for every record index below the record count the divisor `rows` is not zero,
so that `lineIndex % rows` and `lineIndex / rows` are defined; the record loop of
`readScans` never ends in a division by zero. -/
theorem rasterPosition_defined {F : Type} [Zero F] [One F] (io : TextLib F)
    (lines rest : List Line) (info : ScanInfo F)
    (h : readHeader io lines = (.ok (info, true), rest)) :
    (info.dimensions.rows = 0 → totalLines info = 0) ∧
    (∀ i, i < totalLines info →
      toSizeT info.dimensions.rows ≠ 0 ∧ ∃ pos, rasterPosition info i = .ok pos) ∧
    (∀ (k i : Nat) (ls : List Line),
      (streamPoints io info k (totalLines info) i ls).2.1 ≠ .error .undefined) := by
  obtain ⟨-, hrr⟩ := readHeader_true_range io _ _ _ h
  have hzero : info.dimensions.rows = 0 → totalLines info = 0 := by
    intro hz
    unfold totalLines
    rw [hz, Int.mul_zero]
    decide
  have hrows : totalLines info ≠ 0 → toSizeT info.dimensions.rows ≠ 0 := by
    intro hne
    apply toSizeT_ne_zero _ hrr
    intro hz
    exact hne (hzero hz)
  refine ⟨hzero, ?_, fun k i ls => streamPoints_not_undefined io info k _ hrows ls i⟩
  intro i hi
  have hr := hrows (by omega)
  refine ⟨hr, ?_⟩
  unfold rasterPosition
  simp only [hr, if_false]
  exact ⟨_, rfl⟩

theorem rasterPosition_defined_witness :
    readHeader specLib (headerLines "3" "0") = (.ok (headerInfo 3 0, true), []) ∧
    totalLines (headerInfo 3 0) = 0 ∧
    (streamPoints specLib (headerInfo 3 0) 0 (totalLines (headerInfo 3 0)) 0 [sampleRecord]).2.1
      ≠ .error .undefined :=
  have w := rasterPosition_defined specLib (headerLines "3" "0") [] (headerInfo 3 0) (by decide)
  ⟨by decide, w.1 rfl, w.2.2 0 0 [sampleRecord]⟩


/-- Every iteration of the outer loop that goes on has read the ten lines of a
header: a tenth of the number of lines, and one, is a sufficient number of
iterations. -/
theorem readScansLoop_tenth {F : Type} [Zero F] [One F] (io : TextLib F) :
    ∀ (fuel k : Nat) (lines : List Line), lines.length < 10 * fuel →
      readScansLoop io fuel k lines = readScansFrom io k lines := by
  intro fuel
  induction fuel with
  | zero => intro k lines h; omega
  | succ fuel ih =>
    intro k lines h
    rw [readScansLoop]
    rcases hh : readHeader io lines with ⟨r, lines1⟩
    rcases r with e | ⟨info, b⟩
    · rw [readScansFrom_fault io k lines e (by rw [hh])]
    rcases b with _ | _
    · rw [readScansFrom_stop io k lines info (by rw [hh])]
    rw [readScansFrom_scan io k lines lines1 info hh]
    simp only
    have hlen := (readHeader_true_length io _ _ _ hh).1
    have hrest := streamPoints_rest_length io info k (totalLines info) 0 lines1
    rcases hs : streamPoints io info k (totalLines info) 0 lines1 with ⟨evs, o, lines2⟩
    rw [hs] at hrest
    simp only at hrest
    rcases o with e | u
    · rfl
    simp only
    rw [ih (k + 1) lines2 (by omega)]

/-- The record loop reads one line for every point that it delivers, and at
most one line more, the one on which it faults. -/
theorem streamPoints_consumed {F : Type} (io : TextLib F) (info : ScanInfo F)
    (k total : Nat) : ∀ (lines : List Line) (i : Nat), ∃ m,
      (streamPoints io info k total i lines).2.2 = lines.drop m ∧ m ≤ lines.length ∧
      (streamPoints io info k total i lines).1.length ≤ m ∧
      m ≤ (streamPoints io info k total i lines).1.length + 1 := by
  intro lines
  induction lines with
  | nil =>
    intro i
    refine ⟨0, ?_⟩
    by_cases h : i < total
    · obtain ⟨e, he⟩ := streamPoints_nil io info k total i h
      rw [he]
      simp
    · rw [streamPoints_done io info k total i [] h]
      simp
  | cons line rest ih =>
    intro i
    by_cases h : i < total
    · rcases hpos : rasterPosition info i with e | pos
      · refine ⟨0, ?_⟩
        rw [streamPoints, if_pos h, hpos]
        simp
      · rw [streamPoints_cons io info k total i line rest pos h hpos]
        rcases parseLine_cases io line pos k with ⟨e, he⟩ | ⟨p, hp, -⟩
        · refine ⟨1, ?_⟩
          rw [he]
          simp
        · obtain ⟨m, h1, h2, h3, h4⟩ := ih (i + 1)
          refine ⟨m + 1, ?_⟩
          rw [hp]
          simp only [List.singleton_append, List.length_cons, List.drop_succ_cons]
          exact ⟨h1, by omega, by omega, by omega⟩
    · refine ⟨0, ?_⟩
      rw [streamPoints_done io info k total i _ h]
      simp

/-- C18: on every finite sequence of lines `readScans` ends, with a return or a
fault; a number of iterations of the outer loop above a tenth of the number of
lines suffices, since an accepted header is ten lines; the record loop reads one
line for every point and leaves `total - lineIndex` lines fewer when it finishes;
and at the end of the input the header parser fails and the record loop
faults. -/
theorem readScans_terminates {F : Type} [Zero F] [One F] (io : TextLib F)
    (lines : List Line) :
    (∃ trace out, readScans io lines = some (trace, out)) ∧
    (∀ fuel, lines.length < 10 * fuel → readScansLoop io fuel 0 lines = readScans io lines) ∧
    (∀ info rest, readHeader io lines = (.ok (info, true), rest) →
      rest.length + 10 = lines.length) ∧
    (∀ (info : ScanInfo F) (k total i : Nat),
      (streamPoints io info k total i lines).1.length
        + (streamPoints io info k total i lines).2.2.length ≤ lines.length ∧
      ((streamPoints io info k total i lines).2.1 = .ok () →
        (streamPoints io info k total i lines).2.2.length + (total - i) = lines.length)) ∧
    (readHeader io ([] : List Line)).1 = .ok (ScanInfo.default F, false) ∧
    (∀ (info : ScanInfo F) (k total i : Nat), i < total →
      ∃ e, streamPoints io info k total i [] = ([], .error e, [])) := by
  refine ⟨?_, fun fuel h => readScansLoop_tenth io fuel 0 lines h, ?_, ?_,
    readHeader_short io [] (by simp), fun info k total i h => streamPoints_nil io info k total i h⟩
  · obtain ⟨⟨trace, out⟩, hr⟩ := readScansFrom_total io _ 0 lines (le_refl _)
    exact ⟨trace, out, hr⟩
  · intro info rest h
    exact ((readHeader_true_length io _ _ _ h).1).symm
  · intro info k total i
    obtain ⟨pts, h1, h2, h3, h4, h5, h6⟩ := streamPoints_spec io info k total lines i
    obtain ⟨m, hm1, hm2, hm3, hm4⟩ := streamPoints_consumed io info k total lines i
    constructor
    · rw [hm1, List.length_drop]
      omega
    · intro hok
      obtain ⟨ha, hb⟩ := h5 hok
      rw [hb, List.length_drop]
      omega

theorem readScans_terminates_witness :
    twoScans.length < 10 * 3 ∧
    readScansLoop specLib 3 0 twoScans = some (twoScansTrace, .ok ()) :=
  ⟨by decide,
   ((readScans_terminates specLib twoScans).2.1 3 (by decide)).trans (by decide)⟩


/-! ## The trace before a fault -/

/-- A record loop that finishes has read the first `total - lineIndex` lines, and
does the same whatever follows them. -/
theorem streamPoints_ok_stable {F : Type} (io : TextLib F) (info : ScanInfo F)
    (k total : Nat) : ∀ (lines : List Line) (i : Nat) (evs : List (Event F))
      (rest : List Line), streamPoints io info k total i lines = (evs, .ok (), rest) →
      lines = lines.take (total - i) ++ rest ∧
      ∀ Z : List Line,
        streamPoints io info k total i (lines.take (total - i) ++ Z) = (evs, .ok (), Z) := by
  intro lines
  induction lines with
  | nil =>
    intro i evs rest h
    by_cases hi : i < total
    · obtain ⟨e, he⟩ := streamPoints_nil io info k total i hi
      rw [he] at h
      simp at h
    · rw [streamPoints_done io info k total i [] hi] at h
      simp only [Prod.mk.injEq, true_and] at h
      obtain ⟨rfl, rfl⟩ := h
      refine ⟨by simp, fun Z => ?_⟩
      simp only [List.take_nil, List.nil_append]
      exact streamPoints_done io info k total i Z hi
  | cons line r ih =>
    intro i evs rest h
    by_cases hi : i < total
    · rcases hpos : rasterPosition info i with e | pos
      · rw [streamPoints, if_pos hi, hpos] at h
        simp at h
      rw [streamPoints_cons io info k total i line r pos hi hpos] at h
      rcases parseLine_cases io line pos k with ⟨e, he⟩ | ⟨p, hp, -⟩
      · rw [he] at h
        simp at h
      rw [hp] at h
      simp only [Prod.mk.injEq] at h
      obtain ⟨h1, h2, h3⟩ := h
      have hsp : streamPoints io info k total (i + 1) r
          = ((streamPoints io info k total (i + 1) r).1, .ok (), rest) := by
        rw [← h2, ← h3]
      obtain ⟨ihl, ihz⟩ := ih (i + 1) _ rest hsp
      have hsplit : total - i = (total - (i + 1)) + 1 := by omega
      rw [hsplit, List.take_succ_cons]
      refine ⟨by rw [List.cons_append, ← ihl], fun Z => ?_⟩
      rw [List.cons_append, streamPoints_cons io info k total i line _ pos hi hpos, hp]
      simp only
      rw [ihz Z, ← h1]
    · rw [streamPoints_done io info k total i _ hi] at h
      simp only [Prod.mk.injEq, true_and] at h
      obtain ⟨rfl, rfl⟩ := h
      have h0 : total - i = 0 := by omega
      rw [h0]
      refine ⟨by simp, fun Z => ?_⟩
      simp only [List.take_zero, List.nil_append]
      exact streamPoints_done io info k total i Z hi

/-- The run over complete scans reads the lines before the position that it
reaches, and is the same whatever non-empty text stands at that position. -/
theorem runPrefix_stable {F : Type} [Zero F] [One F] (io : TextLib F) :
    ∀ (n k : Nat) (lines : List Line) (pre : List (Event F)) (ls : List Line),
      runPrefix io n k lines = some (pre, ls) →
      ∃ c, lines = c ++ ls ∧
        ∀ Y : List Line, (Y ≠ [] ∨ n = 0) → runPrefix io n k (c ++ Y) = some (pre, Y) := by
  intro n
  induction n with
  | zero =>
    intro k lines pre ls h
    simp only [runPrefix, Option.some.injEq, Prod.mk.injEq] at h
    obtain ⟨rfl, rfl⟩ := h
    exact ⟨[], rfl, fun Y _ => rfl⟩
  | succ n ih =>
    intro k lines pre ls h
    rw [runPrefix] at h
    rcases hh : readHeader io lines with ⟨r, lines1⟩
    rw [hh] at h
    rcases r with e | ⟨info, b⟩
    · simp at h
    rcases b with _ | _
    · simp at h
    simp only at h
    rcases hs : streamPoints io info k (totalLines info) 0 lines1 with ⟨evs, o, lines2⟩
    rw [hs] at h
    rcases o with e | u
    · simp at h
    simp only at h
    by_cases he : eof lines2 = true
    · rw [if_pos he] at h
      simp at h
    rw [if_neg he] at h
    rcases hp : runPrefix io n (k + 1) lines2 with _ | ⟨evs2, ls2⟩
    · rw [hp] at h
      simp at h
    rw [hp] at h
    simp only [Option.some.injEq, Prod.mk.injEq] at h
    obtain ⟨rfl, rfl⟩ := h
    obtain ⟨c2, hc2, ihY⟩ := ih (k + 1) lines2 evs2 ls2 hp
    obtain ⟨hl1, hZ⟩ := streamPoints_ok_stable io info k (totalLines info) lines1 0 evs lines2 hs
    obtain ⟨l1, l2, l3, l4, l5, l6, l7, l8, l9, l10, hlines, hc, hr, hreg⟩ :=
      readHeader_true io _ _ _ hh
    refine ⟨[l1, l2, l3, l4, l5, l6, l7, l8, l9, l10]
      ++ (lines1.take (totalLines info - 0) ++ c2), ?_, ?_⟩
    · rw [hlines, List.append_assoc, List.append_assoc, ← hc2, ← hl1]
      rfl
    · intro Y hY
      have hYne : Y ≠ [] := by
        rcases hY with h | h
        · exact h
        · omega
      rw [runPrefix]
      have hhY : readHeader io ([l1, l2, l3, l4, l5, l6, l7, l8, l9, l10]
          ++ (lines1.take (totalLines info - 0) ++ c2) ++ Y)
          = (.ok (info, true), lines1.take (totalLines info - 0) ++ (c2 ++ Y)) := by
        simp only [List.cons_append, List.nil_append, List.append_assoc]
        rw [readHeader_ten, hc, hr, hreg]
      rw [hhY]
      simp only
      rw [hZ (c2 ++ Y)]
      simp only
      have hne : ¬ eof (c2 ++ Y) = true := by
        simp [eof, hYne]
      rw [if_neg hne, ihY Y]
      · left; exact hYne

/-- A line that `parseLine` accepts is a well-formed record. -/
theorem parseLine_ok_recordOk {F : Type} (io : TextLib F) (line : Line) (pos : RasterPosition)
    (k : Nat) (h : (parseLine io line pos k).2 = .ok ()) : recordOk io line = true := by
  unfold parseLine at h
  by_cases hlen : (io.tokenize line).length ≠ 7
  · rw [if_pos hlen] at h
    simp at h
  rw [if_neg hlen] at h
  unfold recordOk
  rcases ht : io.tokenize line with _ | ⟨t0, _ | ⟨t1, _ | ⟨t2, _ | ⟨t3, _ | ⟨t4, _ | ⟨t5,
    _ | ⟨t6, _ | ⟨t7, more⟩⟩⟩⟩⟩⟩⟩⟩
  all_goals (rw [ht] at hlen; simp only [List.length_cons, List.length_nil] at hlen)
  all_goals try omega
  rw [ht] at h
  simp only [parsePoint, index, List.get?, bind, Except.bind, pure, Except.pure] at h
  rcases h0 : io.stor t0 with _ | x <;> rw [h0] at h <;> simp only [orThrow] at h
  · simp at h
  rcases h1 : io.stor t1 with _ | y <;> rw [h1] at h <;> simp only [] at h
  · simp at h
  rcases h2 : io.stor t2 with _ | z <;> rw [h2] at h <;> simp only [] at h
  · simp at h
  rcases h3 : io.stor t3 with _ | i <;> rw [h3] at h <;> simp only [] at h
  · simp at h
  rcases h4 : io.stou t4 with _ | r <;> rw [h4] at h <;> simp only [] at h
  · simp at h
  rcases h5 : io.stou t5 with _ | g <;> rw [h5] at h <;> simp only [] at h
  · simp at h
  rcases h6 : io.stou t6 with _ | b <;> rw [h6] at h <;> simp only [] at h
  · simp at h
  simp [h0, h1, h2, h3, h4, h5, h6]

/-- The record loop on well-formed records: it delivers the point of each of
them, at the raster position of its index, and goes on with what follows them. -/
theorem streamPoints_good_prefix {F : Type} (io : TextLib F) (info : ScanInfo F)
    (s total : Nat) (hrows : total ≠ 0 → toSizeT info.dimensions.rows ≠ 0) :
    ∀ (G : List Line) (i : Nat), i + G.length ≤ total →
      (∀ l ∈ G, recordOk io l = true) →
      ∃ pts : List (Point F), pts.length = G.length ∧
        (∀ j p, pts.get? j = some p → ∃ l pos, G.get? j = some l ∧
          rasterPosition info (i + j) = .ok pos ∧
          parseLine io l pos s = ([Event.insert s p], .ok ())) ∧
        ∀ Z : List Line, streamPoints io info s total i (G ++ Z)
          = (pts.map (Event.insert s) ++ (streamPoints io info s total (i + G.length) Z).1,
             (streamPoints io info s total (i + G.length) Z).2.1,
             (streamPoints io info s total (i + G.length) Z).2.2) := by
  intro G
  induction G with
  | nil =>
    intro i _ _
    exact ⟨[], rfl, fun j p h => by simp at h, fun Z => by simp⟩
  | cons line r ih =>
    intro i hlen hall
    simp only [List.length_cons] at hlen
    have hi : i < total := by omega
    have hpos : ∃ pos, rasterPosition info i = .ok pos := by
      unfold rasterPosition
      simp only [hrows (by omega), if_false]
      exact ⟨_, rfl⟩
    obtain ⟨pos, hpos⟩ := hpos
    obtain ⟨p, hp, -⟩ := parseLine_recordOk io line pos s (hall line (List.mem_cons_self _ _))
    obtain ⟨pts, h1, h2, h3⟩ := ih (i + 1) (by omega)
      (fun l hl => hall l (List.mem_cons_of_mem _ hl))
    refine ⟨p :: pts, by simp [h1], ?_, ?_⟩
    · intro j q hj
      rcases j with _ | j
      · simp only [List.get?_cons_zero, Option.some.injEq] at hj
        subst hj
        exact ⟨line, pos, rfl, by simpa using hpos, hp⟩
      · simp only [List.get?_cons_succ] at hj
        obtain ⟨l, pos2, ha, hb, hc⟩ := h2 j q hj
        refine ⟨l, pos2, by simpa using ha, ?_, hc⟩
        rw [show i + (j + 1) = i + 1 + j by omega]
        exact hb
    · intro Z
      rw [List.cons_append, streamPoints_cons io info s total i line _ pos hi hpos, hp]
      simp only
      rw [h3 Z, show i + 1 + r.length = i + (r.length + 1) by omega]
      simp

/-- A scan that another scan follows in the trace has got all its points. -/
theorem TraceFrom.complete {F : Type} {k : Nat} {trace : List (Event F)}
    (h : TraceFrom k trace) : ∀ (n : Nat) (info : ScanInfo F),
      (scanStarts trace).get? n = some info → n + 1 < (scanStarts trace).length →
      (sinkPoints (k + n) trace).length = totalLines info := by
  induction h with
  | nil k => intro n info hn; simp [scanStarts] at hn
  | block k info0 pts tail _ _ _ _ hfull htail ih =>
    intro n info hn hlt
    simp only [scanStarts, scanStarts_append, scanStarts_inserts, List.nil_append,
      List.length_cons] at hn hlt
    rcases n with _ | n
    · simp only [List.get?_cons_zero, Option.some.injEq] at hn
      subst hn
      have hne : tail ≠ [] := by
        intro ht
        subst ht
        simp [scanStarts] at hlt
      have h0 := htail.sinkPoints_below k (by omega)
      simp only [Nat.add_zero, sinkPoints, sinkPoints_append, sinkPoints_inserts, if_true, h0,
        List.append_nil]
      exact hfull hne
    · simp only [List.get?_cons_succ] at hn
      have hne : ¬ k = k + (n + 1) := by omega
      simp only [sinkPoints, sinkPoints_append, sinkPoints_inserts, hne, if_false,
        List.nil_append]
      have := ih n info hn (by omega)
      rw [show k + 1 + n = k + (n + 1) by omega] at this
      exact this

/-- With an accepted header and a record count that is not zero, the row count
is not zero as a `std::size_t`. -/
theorem totalLines_rows {F : Type} [Zero F] [One F] (io : TextLib F) (lines rest : List Line)
    (info : ScanInfo F) (h : readHeader io lines = (.ok (info, true), rest)) :
    totalLines info ≠ 0 → toSizeT info.dimensions.rows ≠ 0 := by
  obtain ⟨-, hrr⟩ := readHeader_true_range io _ _ _ h
  intro hne
  apply toSizeT_ne_zero _ hrr
  intro hz
  apply hne
  unfold totalLines
  rw [hz, Int.mul_zero]
  decide

/-- The run from a header position on an accepted header that well-formed
records `G` follow starts with the callback and the points of `G`. -/
theorem readScansFrom_good_prefix {F : Type} [Zero F] [One F] (io : TextLib F) (s : Nat)
    (ls G Z : List Line) (info : ScanInfo F) (pts : List (Point F))
    (hhdr : readHeader io ls = (.ok (info, true), G ++ Z))
    (hsp : streamPoints io info s (totalLines info) 0 (G ++ Z)
      = (pts.map (Event.insert s) ++ (streamPoints io info s (totalLines info) G.length Z).1,
         (streamPoints io info s (totalLines info) G.length Z).2.1,
         (streamPoints io info s (totalLines info) G.length Z).2.2)) :
    ∃ more out, readScansFrom io s ls
      = some (Event.scanStart info :: pts.map (Event.insert s) ++ more, out) ∧
      ((streamPoints io info s (totalLines info) G.length Z).1 = [] →
        ∀ e, (streamPoints io info s (totalLines info) G.length Z).2.1 = .error e →
          more = [] ∧ out = .error e) := by
  rw [readScansFrom_scan io s ls _ info hhdr, hsp]
  rcases streamPoints io info s (totalLines info) G.length Z with ⟨evs, o, rest⟩
  rcases o with e | u
  · refine ⟨evs, .error e, by simp, ?_⟩
    intro h0 e2 he
    simp only at h0 he
    simp only [Except.error.injEq] at he
    exact ⟨h0, by rw [he]⟩
  · simp only
    by_cases he : eof rest = true
    · rw [if_pos he]
      exact ⟨evs, .ok (), by simp, fun _ e2 h => by simp at h⟩
    · rw [if_neg he]
      obtain ⟨⟨evs2, out2⟩, hr⟩ := readScansFrom_total io _ (s + 1) rest (le_refl _)
      rw [hr]
      exact ⟨evs ++ evs2, out2, by simp, fun _ e2 h => by simp at h⟩

/-- C14: when the reader, after `s` complete scans and an accepted header, has read
`k` well-formed records and the record of index `k` is corrupt or missing,
`readScans` aborts and its trace is the events of the `s` complete scans, the
invocation of the callback for scan `s` and the `k` points of the records
`0..k-1`, in order, in the sink of scan `s`; the scans before have all their
points; and on every input that has the same lines before the faulty record the
trace starts with these events. -/
theorem readScans_fault_prefix {F : Type} [Zero F] [One F] (io : TextLib F)
    (lines : List Line) (s : Nat) (pre : List (Event F)) (ls ls1 : List Line)
    (info : ScanInfo F) (k : Nat)
    (hpos : runPrefix io s 0 lines = some (pre, ls))
    (hhdr : readHeader io ls = (.ok (info, true), ls1))
    (hk : k < totalLines info) (hklen : k ≤ ls1.length)
    (hgood : ∀ l ∈ ls1.take k, recordOk io l = true)
    (hbad : ∀ bad, ls1.get? k = some bad → recordOk io bad = false) :
    ∃ (pts : List (Point F)) (e : Fault),
      readScans io lines
        = some (pre ++ Event.scanStart info :: pts.map (Event.insert s), .error e) ∧
      pts.length = k ∧
      (∀ j p, pts.get? j = some p → ∃ l pos, ls1.get? j = some l ∧
        rasterPosition info j = .ok pos ∧
        parseLine io l pos s = ([Event.insert s p], .ok ())) ∧
      scanStarts (pre ++ Event.scanStart info :: pts.map (Event.insert s))
        = scanStarts pre ++ [info] ∧
      (scanStarts pre).length = s ∧
      sinkPoints s (pre ++ Event.scanStart info :: pts.map (Event.insert s)) = pts ∧
      (∀ j i, (scanStarts pre).get? j = some i →
        (sinkPoints j (pre ++ Event.scanStart info :: pts.map (Event.insert s))).length
          = totalLines i) ∧
      ∀ T : List Line, ∃ more out,
        readScans io (lines.take (lines.length - ls1.length + k) ++ T)
          = some ((pre ++ Event.scanStart info :: pts.map (Event.insert s)) ++ more, out) := by
  have hrows := totalLines_rows io ls ls1 info hhdr
  have hG : (ls1.take k).length = k := by simp [hklen]
  obtain ⟨pts, hplen, hppts, hpsp⟩ := streamPoints_good_prefix io info s (totalLines info)
    hrows (ls1.take k) 0 (by rw [hG]; omega) hgood
  rw [hG] at hplen
  simp only [hG, Nat.zero_add] at hpsp hppts
  -- the record loop stops on the faulty record
  have hfault : ∃ e, (streamPoints io info s (totalLines info) k (ls1.drop k)).1 = [] ∧
      (streamPoints io info s (totalLines info) k (ls1.drop k)).2.1 = .error e := by
    rcases hd : ls1.drop k with _ | ⟨bad, R⟩
    · obtain ⟨e, he⟩ := streamPoints_nil io info s (totalLines info) k hk
      exact ⟨e, by rw [he], by rw [he]⟩
    · have hget : ls1.get? k = some bad := by
        have := List.get?_drop ls1 k 0
        rw [hd] at this
        simpa using this.symm
      have hbadrec := hbad bad hget
      have hpos : ∃ pos, rasterPosition info k = .ok pos := by
        unfold rasterPosition
        simp only [hrows (by omega), if_false]
        exact ⟨_, rfl⟩
      obtain ⟨pos, hpos⟩ := hpos
      rw [streamPoints_cons io info s (totalLines info) k bad R pos hk hpos]
      rcases parseLine_cases io bad pos s with ⟨e, he⟩ | ⟨p, hp, -⟩
      · rw [he]
        exact ⟨e, rfl, rfl⟩
      · have := parseLine_ok_recordOk io bad pos s (by rw [hp])
        rw [hbadrec] at this
        cases this
  obtain ⟨e, hf1, hf2⟩ := hfault
  have hsplit : ls1 = ls1.take k ++ ls1.drop k := (List.take_append_drop k ls1).symm
  obtain ⟨more0, out0, hrun0, hend⟩ := readScansFrom_good_prefix io s ls (ls1.take k)
    (ls1.drop k) info pts (by rw [← hsplit]; exact hhdr) (by rw [hG]; exact hpsp _)
  rw [hG] at hend
  obtain ⟨rfl, rfl⟩ := hend hf1 e hf2
  rw [List.append_nil] at hrun0
  obtain ⟨hpre1, hpre2, hpre3⟩ := runPrefix_run io s 0 lines pre ls hpos
  have hrun := hpre1 _ (by rw [Nat.zero_add]; exact hrun0)
  simp only at hrun
  have hstarts : scanStarts (pre ++ Event.scanStart info :: pts.map (Event.insert s))
      = scanStarts pre ++ [info] := by
    simp [scanStarts_append, scanStarts, scanStarts_inserts]
  have htr := readScansFrom_trace io _ 0 lines _ _ (le_refl _) hrun
  refine ⟨pts, e, hrun, hplen, ?_, hstarts, hpre2, ?_, ?_, ?_⟩
  · intro j p hj
    obtain ⟨l, pos, ha, hb, hc⟩ := hppts j p hj
    refine ⟨l, pos, ?_, hb, hc⟩
    rw [List.get?_take] at ha
    · exact ha
    · by_contra hcon
      rw [List.get?_eq_none.mpr (by rw [hplen]; omega)] at hj
      cases hj
  · simp [sinkPoints_append, sinkPoints, sinkPoints_inserts, hpre3 s (by omega)]
  · intro j i hj
    have hjlt : j < (scanStarts pre).length := by
      by_contra hcon
      rw [List.get?_eq_none.mpr (by omega)] at hj
      cases hj
    have := htr.complete j i (by rw [hstarts, List.get?_append hjlt]; exact hj)
      (by rw [hstarts]; simp; omega)
    rw [Nat.zero_add] at this
    exact this
  · intro T
    obtain ⟨c, hc, hY⟩ := runPrefix_stable io s 0 lines pre ls hpos
    obtain ⟨l1, l2, l3, l4, l5, l6, l7, l8, l9, l10, hls, hcs, hrs, hreg⟩ :=
      readHeader_true io _ _ _ hhdr
    have htake : lines.take (lines.length - ls1.length + k)
        = c ++ ([l1, l2, l3, l4, l5, l6, l7, l8, l9, l10] ++ ls1.take k) := by
      have hl : lines = (c ++ ([l1, l2, l3, l4, l5, l6, l7, l8, l9, l10] ++ ls1.take k))
          ++ ls1.drop k := by
        rw [hc, hls]
        simp only [List.append_assoc, List.cons_append, List.nil_append, List.take_append_drop]
      have hlen : lines.length - ls1.length + k
          = (c ++ ([l1, l2, l3, l4, l5, l6, l7, l8, l9, l10] ++ ls1.take k)).length := by
        rw [hc, hls]
        simp only [List.length_append, List.length_cons, List.length_nil, hG]
        omega
      rw [hlen]
      conv_lhs => rw [hl]
      exact List.take_left' rfl
    have hhdrT : readHeader io ([l1, l2, l3, l4, l5, l6, l7, l8, l9, l10] ++ ls1.take k ++ T)
        = (.ok (info, true), ls1.take k ++ T) := by
      simp only [List.cons_append, List.nil_append]
      rw [readHeader_ten, hcs, hrs, hreg]
    obtain ⟨more, out, hrunT, -⟩ := readScansFrom_good_prefix io s
      ([l1, l2, l3, l4, l5, l6, l7, l8, l9, l10] ++ ls1.take k ++ T) (ls1.take k) T info pts
      hhdrT (by rw [hG]; exact hpsp T)
    have hpreT := hY ([l1, l2, l3, l4, l5, l6, l7, l8, l9, l10] ++ ls1.take k ++ T)
      (Or.inl (by simp))
    obtain ⟨hT1, -, -⟩ := runPrefix_run io s 0 _ pre _ hpreT
    have hfin := hT1 _ (by rw [Nat.zero_add]; exact hrunT)
    refine ⟨more, out, ?_⟩
    rw [htake]
    simp only [List.append_assoc] at hfin ⊢
    exact hfin

theorem readScans_fault_prefix_witness :
    runPrefix specLib 1 0 corruptScans = some (twoScansTrace.take 3, corruptScans.drop 12) ∧
    readHeader specLib (corruptScans.drop 12)
      = (.ok (headerInfo 2 2, true), corruptScans.drop 22) ∧
    (corruptScans.drop 22).get? 2 = some (ln "corrupt") ∧
    recordOk specLib (ln "corrupt") = false ∧
    readScans specLib corruptScans = some (twoScansTrace.take 6, .error .assertion) ∧
    ∃ (pts : List (Point Dec)) (e : Fault),
      readScans specLib corruptScans
        = some (twoScansTrace.take 3 ++ Event.scanStart (headerInfo 2 2)
            :: pts.map (Event.insert 1), .error e) ∧
      pts.length = 2 :=
  have w := readScans_fault_prefix specLib corruptScans 1 (twoScansTrace.take 3)
    (corruptScans.drop 12) (corruptScans.drop 22) (headerInfo 2 2) 2 (by decide) (by decide)
    (by decide) (by decide) (by decide) (by decide)
  ⟨by decide, by decide, by decide, by decide, by decide,
   w.imp fun _ h => h.imp fun _ h => ⟨h.1, h.2.1⟩⟩

end libptx
